import Mathlib

/-!
Verification of the s2prot StarCraft II replay decoder.

This file shallowly embeds the bit-packed buffer (bitpackedbuff.go), the
versioned and bit-packed schema decoders (versioneddec.go, bitpackeddec.go),
the event-stream framing and protocol registry (protocol.go), and proves or
refutes the frozen claims about them.

Conventions of the embedding:
- Go byte slices become List Nat (each entry a byte value).
- Go run-time panics (index out of range, failed type assertions, make with a
  negative size) become Option.none / DRes.panic.
- Machine arithmetic is Nat / Int with explicit truncation: byte8 truncates to
  8 bits where Go byte arithmetic wraps, w64 truncates to 64 bits where Go
  int64 arithmetic wraps.
- Go loops become structurally recursive functions over an explicit fuel
  argument; the fuel chosen at each call site dominates the number of loop
  iterations of the source, so the fuel-exhausted branch is unreachable there.
-/

namespace S2Prot

/-- Truncation of Go byte arithmetic (bit pattern of a uint8). -/
def byte8 (x : Nat) : Nat := x % 256

/-- Truncation of Go int64 arithmetic (unsigned bit pattern of an int64). -/
def w64 (x : Nat) : Nat := x % 2 ^ 64

/-- Signed reading of a 64-bit pattern (two's complement). -/
def toInt64 (x : Nat) : Int := if x < 2 ^ 63 then (x : Int) else (x : Int) - 2 ^ 64

/-- Wrap of Go int64 addition and similar signed operations. -/
def wrap64 (i : Int) : Int := (i + 2 ^ 63) % 2 ^ 64 - 2 ^ 63

/-- bitpackedbuff.go: bit masks having as many ones at the lowest bits as the index. -/
def bitMasks : List Nat := [0x00, 0x01, 0x03, 0x07, 0x0f, 0x1f, 0x3f, 0x7f, 0xff]

/-- Lookup in bitMasks; every use in the source indexes with a value in 0..8. -/
def bitMask (n : Nat) : Nat := bitMasks.getD n 0

/-- bitpackedbuff.go: the wrapper around a byte slice providing access by bits. -/
structure bitPackedBuff where
  contents : List Nat
  bigEndian : Bool
  idx : Nat
  cache : Nat
  cacheBits : Nat
deriving Repr, DecidableEq

/-- A freshly constructed buffer (Go zero values for idx, cache, cacheBits). -/
def freshBuff (contents : List Nat) (bigEndian : Bool) : bitPackedBuff :=
  ⟨contents, bigEndian, 0, 0, 0⟩

/-- bitpackedbuff.go EOF: end of buffer reached. -/
def bitPackedBuff.EOF (b : bitPackedBuff) : Bool :=
  b.cacheBits = 0 && b.contents.length ≤ b.idx

/-- bitpackedbuff.go byteAlign: discard unused bits of the cached byte. -/
def bitPackedBuff.byteAlign (b : bitPackedBuff) : bitPackedBuff :=
  { b with cacheBits := 0 }

/-- bitpackedbuff.go readBits1: read a single bit (low bit of the cache first). -/
def bitPackedBuff.readBits1 (b : bitPackedBuff) : Option (Bool × bitPackedBuff) :=
  if b.cacheBits = 0 then
    match b.contents.get? b.idx with
    | none => none
    | some cache =>
      some (cache &&& 0x01 = 1,
            { b with cache := cache >>> 1, idx := b.idx + 1, cacheBits := 7 })
  else
    some (b.cache &&& 0x01 = 1,
          { b with cache := b.cache >>> 1, cacheBits := b.cacheBits - 1 })

/-- bitpackedbuff.go readBits8: read 8 bits as a byte. -/
def bitPackedBuff.readBits8 (b : bitPackedBuff) : Option (Nat × bitPackedBuff) :=
  if b.cacheBits = 0 then
    match b.contents.get? b.idx with
    | none => none
    | some r => some (r, { b with idx := b.idx + 1 })
  else
    match b.contents.get? b.idx with
    | none => none
    | some c =>
      let compBits := 8 - b.cacheBits
      if b.bigEndian then
        some (byte8 (b.cache <<< compBits) ||| (c &&& bitMask compBits),
              { b with cache := c >>> compBits, idx := b.idx + 1 })
      else
        some (b.cache ||| byte8 ((c &&& bitMask compBits) <<< b.cacheBits),
              { b with cache := c >>> compBits, idx := b.idx + 1 })

/-- bitpackedbuff.go readBitsBig, loop body. The fuel dominates the iteration
count: each pass either returns or decreases n by the (positive) cacheBits. -/
def readBitsBigLoop : Nat → Nat → Nat → bitPackedBuff → Option (Nat × bitPackedBuff)
  | 0, _, _, _ => none
  | fuel + 1, value, n, b0 =>
    match (if b0.cacheBits = 0 then
             match b0.contents.get? b0.idx with
             | none => none
             | some c => some { b0 with cache := c, idx := b0.idx + 1, cacheBits := 8 }
           else some b0) with
    | none => none
    | some b =>
      if b.cacheBits < n then
        readBitsBigLoop fuel (w64 ((value <<< b.cacheBits) ||| b.cache))
          (n - b.cacheBits) { b with cacheBits := 0 }
      else if n < b.cacheBits then
        some (w64 ((value <<< n) ||| (b.cache &&& bitMask n)),
              { b with cacheBits := b.cacheBits - n, cache := b.cache >>> n })
      else
        some (w64 ((value <<< n) ||| b.cache), { b with cacheBits := 0 })

/-- bitpackedbuff.go readBitsBig (n must not be 0). -/
def bitPackedBuff.readBitsBig (b : bitPackedBuff) (n : Nat) : Option (Nat × bitPackedBuff) :=
  readBitsBigLoop n 0 n b

/-- bitpackedbuff.go readBitsBigByte, whole-byte loop (runs while n > 8). -/
def readBitsBigByteLoop : Nat → Nat → Nat → bitPackedBuff → Option (Nat × bitPackedBuff)
  | 0, _, _, _ => none
  | fuel + 1, value, n, b =>
    if 8 < n then
      match b.contents.get? b.idx with
      | none => none
      | some c => readBitsBigByteLoop fuel (w64 ((value <<< 8) ||| c)) (n - 8)
          { b with idx := b.idx + 1 }
    else some (value, b)

/-- bitpackedbuff.go readBitsBigByte: optimized big-endian read of a positive
multiple of 8 bits with a non-empty cache. -/
def bitPackedBuff.readBitsBigByte (b : bitPackedBuff) (n : Nat) : Option (Nat × bitPackedBuff) :=
  match readBitsBigByteLoop n b.cache n b with
  | none => none
  | some (value, b1) =>
    match b1.contents.get? b1.idx with
    | none => none
    | some c =>
      let compBits := 8 - b.cacheBits
      some (w64 ((value <<< compBits) ||| (c &&& bitMask compBits)),
            { b1 with cache := c >>> compBits, idx := b1.idx + 1 })

/-- bitpackedbuff.go readBitsLittle, loop body (fuel as in readBitsBigLoop). -/
def readBitsLittleLoop : Nat → Nat → Nat → Nat → bitPackedBuff → Option (Nat × bitPackedBuff)
  | 0, _, _, _, _ => none
  | fuel + 1, value, valueBits, n, b0 =>
    match (if b0.cacheBits = 0 then
             match b0.contents.get? b0.idx with
             | none => none
             | some c => some { b0 with cache := c, idx := b0.idx + 1, cacheBits := 8 }
           else some b0) with
    | none => none
    | some b =>
      if b.cacheBits < n then
        readBitsLittleLoop fuel (value ||| w64 (b.cache <<< valueBits))
          (byte8 (valueBits + b.cacheBits)) (n - b.cacheBits) { b with cacheBits := 0 }
      else if n < b.cacheBits then
        some (value ||| w64 ((b.cache &&& bitMask n) <<< valueBits),
              { b with cacheBits := b.cacheBits - n, cache := b.cache >>> n })
      else
        some (value ||| w64 (b.cache <<< valueBits), { b with cacheBits := 0 })

/-- bitpackedbuff.go readBitsLittle (n must not be 0). -/
def bitPackedBuff.readBitsLittle (b : bitPackedBuff) (n : Nat) : Option (Nat × bitPackedBuff) :=
  readBitsLittleLoop n 0 0 n b

/-- bitpackedbuff.go readBits, little-endian fast path loop (i = 8, 16, ... < n). -/
def readLittleFastLoop : Nat → Nat → Nat → Nat → bitPackedBuff → Option (Nat × bitPackedBuff)
  | 0, _, _, _, _ => none
  | fuel + 1, value, i, n, b =>
    if i < n then
      match b.contents.get? b.idx with
      | none => none
      | some c => readLittleFastLoop fuel (value ||| w64 (c <<< i)) (i + 8) n
          { b with idx := b.idx + 1 }
    else some (value, b)

/-- bitpackedbuff.go readBits: a number constructed from the next n bits. -/
def bitPackedBuff.readBits (b : bitPackedBuff) (n : Nat) : Option (Nat × bitPackedBuff) :=
  if n = 0 then some (0, b)
  else if b.bigEndian then
    if n &&& 0x07 = 0 ∧ b.cacheBits ≠ 0 then b.readBitsBigByte n
    else b.readBitsBig n
  else
    if n &&& 0x07 = 0 ∧ b.cacheBits = 0 then
      match b.contents.get? b.idx with
      | none => none
      | some c => readLittleFastLoop n c 8 n { b with idx := b.idx + 1 }
    else b.readBitsLittle n

/-- bitpackedbuff.go readAligned: byte-align, then read n bytes; the copy stops
at the end of contents and the missing tail bytes of the result stay zero.
A negative n is the panic of the Go make call; idx beyond the length is the
panic of the slice expression. -/
def bitPackedBuff.readAligned (b : bitPackedBuff) (n : Int) : Option (List Nat × bitPackedBuff) :=
  if n < 0 then none
  else if b.contents.length < b.idx then none
  else
    let avail := (b.contents.drop b.idx).take n.toNat
    some (avail ++ List.replicate (n.toNat - avail.length) 0,
          { b with cacheBits := 0, idx := b.idx + avail.length })

/-- bitpackedbuff.go readUnaligned, naive branch: n bytes via readBits(8). -/
def readUnalignedSmallLoop : Nat → bitPackedBuff → Option (List Nat × bitPackedBuff)
  | 0, b => some ([], b)
  | k + 1, b =>
    match b.readBits 8 with
    | none => none
    | some (v, b1) =>
      match readUnalignedSmallLoop k b1 with
      | none => none
      | some (rest, b2) => some (byte8 v :: rest, b2)

/-- bitpackedbuff.go readUnaligned, optimized big-endian branch loop; returns
the bytes together with the final local cache and idx values. -/
def readUnalignedBigLoop (contents : List Nat) (mask : Nat) :
    Nat → Nat → Nat → Option (List Nat × Nat × Nat)
  | 0, cache, idx => some ([], cache, idx)
  | k + 1, cache, idx =>
    match contents.get? idx with
    | none => none
    | some c =>
      let value := cache &&& (0xff ^^^ mask)
      match readUnalignedBigLoop contents mask k c (idx + 1) with
      | none => none
      | some (rest, cache1, idx1) => some ((value ||| (c &&& mask)) :: rest, cache1, idx1)

/-- bitpackedbuff.go readUnaligned, optimized little-endian branch loop. -/
def readUnalignedLittleLoop (contents : List Nat) (mask cacheBits complCacheBits : Nat) :
    Nat → Nat → Nat → Option (List Nat × Nat × Nat)
  | 0, cache, idx => some ([], cache, idx)
  | k + 1, cache, idx =>
    match contents.get? idx with
    | none => none
    | some c =>
      let value := cache &&& mask
      match readUnalignedLittleLoop contents mask cacheBits complCacheBits k
          (c >>> complCacheBits) (idx + 1) with
      | none => none
      | some (rest, cache1, idx1) =>
        some ((value ||| byte8 (c <<< cacheBits)) :: rest, cache1, idx1)

/-- bitpackedbuff.go readUnaligned: read n bytes (8n bits) without realigning. -/
def bitPackedBuff.readUnaligned (b : bitPackedBuff) (n : Int) : Option (List Nat × bitPackedBuff) :=
  if n < 0 then none
  else
    let nn := n.toNat
    if nn = 0 then some ([], b)
    else if b.cacheBits = 0 then
      if b.contents.length < b.idx then none
      else
        let avail := (b.contents.drop b.idx).take nn
        some (avail ++ List.replicate (nn - avail.length) 0, { b with idx := b.idx + avail.length })
    else if nn ≤ 2 then
      readUnalignedSmallLoop nn b
    else
      let complCacheBits := 8 - b.cacheBits
      if b.bigEndian then
        match readUnalignedBigLoop b.contents (bitMask complCacheBits) nn
            (byte8 (b.cache <<< complCacheBits)) b.idx with
        | none => none
        | some (buff, cache1, idx1) =>
          some (buff, { b with cache := cache1 >>> complCacheBits, idx := idx1 })
      else
        match readUnalignedLittleLoop b.contents (bitMask b.cacheBits) b.cacheBits
            complCacheBits nn b.cache b.idx with
        | none => none
        | some (buff, cache1, idx1) =>
          some (buff, { b with cache := cache1, idx := idx1 })

/-- Read a sequence of bit widths, collecting the values (test helper shape). -/
def readBitsSeq (b : bitPackedBuff) : List Nat → Option (List Nat)
  | [] => some []
  | n :: ns =>
    match b.readBits n with
    | none => none
    | some (v, b1) => (readBitsSeq b1 ns).map (v :: ·)

end S2Prot

namespace S2Prot

theorem w64_eq_of_lt {x : Nat} (h : x < 2 ^ 64) : w64 x = x := Nat.mod_eq_of_lt h

theorem and_bitMask (c n : Nat) (h : n ≤ 8) : c &&& bitMask n = c % 2 ^ n := by
  have e : bitMask n = 2 ^ n - 1 := by interval_cases n <;> rfl
  rw [e]
  exact Nat.and_pow_two_sub_one_eq_mod c n

end S2Prot

/-- C1: for a fresh big-endian BitBuffer over 0x01 0x02 0x03 0x04 the calls
readBits(3), readBits(13), readBits(1), readBits(15) return 1, 2, 1, 0x0104;
for a fresh little-endian BitBuffer over the same contents they return
1, 0x40, 1, 0x0201. -/
theorem c1_readBits_sequences :
    S2Prot.readBitsSeq (S2Prot.freshBuff [0x01, 0x02, 0x03, 0x04] true) [3, 13, 1, 15] =
      some [1, 2, 1, 0x0104] ∧
    S2Prot.readBitsSeq (S2Prot.freshBuff [0x01, 0x02, 0x03, 0x04] false) [3, 13, 1, 15] =
      some [1, 0x40, 1, 0x0201] := by
  exact ⟨rfl, rfl⟩

/-- C2 counterexample: the claim predicts that on a fresh big-endian buffer
readBits(n) yields the top n bits of the first byte, i.e. readBits(1) on
contents [0x01] would yield 0x01 >>> 7 = 0; the code returns 1 (it consumes
the LOW bit of each byte first). -/
theorem c2_counterexample :
    ((S2Prot.freshBuff [0x01] true).readBits 1).map Prod.fst = some 1 ∧
    (0x01 : Nat) >>> (8 - 1) ≠ 1 := by
  exact ⟨rfl, by decide⟩

/-- C2 (amended): in big-endian mode the BitBuffer consumes, within each byte,
the LOW bit first: for every fresh big-endian BitBuffer with non-empty contents
and every n in 1..8, readBits(n) returns the integer formed by the bottom n
bits (LSB-first) of the first content byte, and readBits1 returns the least
significant bit of that byte. -/
theorem c2_amended_low_bit_first (c : Nat) (rest : List Nat) (n : Nat)
    (hc : c < 256) (h1 : 1 ≤ n) (h8 : n ≤ 8) :
    ((S2Prot.freshBuff (c :: rest) true).readBits n).map Prod.fst = some (c % 2 ^ n) ∧
    ((S2Prot.freshBuff (c :: rest) true).readBits1).map Prod.fst = some (decide (c % 2 = 1)) := by
  constructor
  · interval_cases n <;>
      simp [S2Prot.bitPackedBuff.readBits, S2Prot.bitPackedBuff.readBitsBig,
        S2Prot.readBitsBigLoop, S2Prot.freshBuff, S2Prot.w64] <;>
      first
        | omega
        | (rw [S2Prot.and_bitMask c _ (by norm_num)] ; omega)
  · simp [S2Prot.bitPackedBuff.readBits1, S2Prot.freshBuff, Nat.and_one_is_mod]

/-- Witness for c2_amended_low_bit_first at c = 0xB7, n = 3. -/
theorem c2_amended_low_bit_first_witness :
    ((S2Prot.freshBuff (0xB7 :: [0x05]) true).readBits 3).map Prod.fst = some (0xB7 % 2 ^ 3) ∧
    ((S2Prot.freshBuff (0xB7 :: [0x05]) true).readBits1).map Prod.fst =
      some (decide (0xB7 % 2 = 1)) :=
  c2_amended_low_bit_first 0xB7 [0x05] 3 (by decide) (by decide) (by decide)

/-- C10: for every n ≥ 0 and every BitBuffer state with idx ≤ len(contents),
readAligned(n) never fails and returns exactly n bytes: it discards the bit
cache, copies the available bytes starting at idx (missing tail bytes stay
zero), and advances idx by exactly the number of bytes copied, never past
len(contents). -/
theorem c10_readAligned_total (b : S2Prot.bitPackedBuff) (n : Int)
    (hn : 0 ≤ n) (hidx : b.idx ≤ b.contents.length) :
    ∃ buff b', b.readAligned n = some (buff, b') ∧
      buff.length = n.toNat ∧
      buff = (b.contents.drop b.idx).take n.toNat ++
        List.replicate (n.toNat - min n.toNat (b.contents.length - b.idx)) 0 ∧
      b'.cacheBits = 0 ∧
      b'.idx = b.idx + min n.toNat (b.contents.length - b.idx) ∧
      b'.idx ≤ b.contents.length ∧
      b'.contents = b.contents ∧ b'.bigEndian = b.bigEndian ∧ b'.cache = b.cache := by
  have hlt : ¬ n < 0 := by omega
  have hlen : ¬ b.contents.length < b.idx := by omega
  have havail : ((b.contents.drop b.idx).take n.toNat).length =
      min n.toNat (b.contents.length - b.idx) := by
    simp [List.length_take, List.length_drop]
  refine ⟨(b.contents.drop b.idx).take n.toNat ++
      List.replicate (n.toNat - ((b.contents.drop b.idx).take n.toNat).length) 0,
    { b with cacheBits := 0, idx := b.idx + ((b.contents.drop b.idx).take n.toNat).length },
    ?_, ?_, ?_, rfl, ?_, ?_, rfl, rfl, rfl⟩
  · simp [S2Prot.bitPackedBuff.readAligned, hlt, hlen]
  · rw [List.length_append, List.length_replicate, havail]
    omega
  · rw [havail]
  · simp only [havail]
  · simp only [havail]
    omega

/-- Witness for c10_readAligned_total: three content bytes, n = 5. -/
theorem c10_readAligned_total_witness :
    ∃ buff b', (S2Prot.freshBuff [1, 2, 3] true).readAligned 5 = some (buff, b') ∧
      buff.length = (5 : Int).toNat ∧
      buff = (((S2Prot.freshBuff [1, 2, 3] true).contents.drop
          (S2Prot.freshBuff [1, 2, 3] true).idx).take (5 : Int).toNat ++
        List.replicate ((5 : Int).toNat - min (5 : Int).toNat
          ((S2Prot.freshBuff [1, 2, 3] true).contents.length -
            (S2Prot.freshBuff [1, 2, 3] true).idx)) 0) ∧
      b'.cacheBits = 0 ∧
      b'.idx = (S2Prot.freshBuff [1, 2, 3] true).idx + min (5 : Int).toNat
        ((S2Prot.freshBuff [1, 2, 3] true).contents.length -
          (S2Prot.freshBuff [1, 2, 3] true).idx) ∧
      b'.idx ≤ (S2Prot.freshBuff [1, 2, 3] true).contents.length ∧
      b'.contents = (S2Prot.freshBuff [1, 2, 3] true).contents ∧
      b'.bigEndian = (S2Prot.freshBuff [1, 2, 3] true).bigEndian ∧
      b'.cache = (S2Prot.freshBuff [1, 2, 3] true).cache :=
  c10_readAligned_total (S2Prot.freshBuff [1, 2, 3] true) 5 (by decide) (by decide)

namespace S2Prot

/-- versioneddec.go readVarInt, loop body. The fuel dominates the iteration
count: each pass consumes one byte of contents or fails. The sign step embeds
the Go arithmetic shift on int64 as a floor division of the signed reading. -/
def readVarIntLoop : Nat → Nat → Nat → bitPackedBuff → Option (Int × bitPackedBuff)
  | 0, _, _, _ => none
  | fuel + 1, shift, value, b =>
    match b.readBits8 with
    | none => none
    | some (data, b1) =>
      let value1 := value ||| w64 ((data &&& 0x7f) <<< shift)
      if data &&& 0x80 = 0 then
        if value1 &&& 0x01 ≠ 0 then some (wrap64 (-(Int.fdiv (toInt64 value1) 2)), b1)
        else some (Int.fdiv (toInt64 value1) 2, b1)
      else
        readVarIntLoop fuel (shift + 7) value1 b1

/-- versioneddec.go readVarInt: read a variable-length int value. -/
def readVarInt (b : bitPackedBuff) : Option (Int × bitPackedBuff) :=
  readVarIntLoop (b.contents.length - b.idx + 1) 0 0 b

/-- Modelled from the spec: the reference varint re-encoder of the test
harness (which is not part of src/), byte-producing loop over the zig-zag
accumulator: 7 data bits per byte low-order first, bit 7 as the continuation
flag. The fuel (64 at the call site) covers every accumulator below 128^64. -/
def encodeVarIntAcc : Nat → Nat → List Nat
  | 0, _ => []
  | fuel + 1, acc =>
    if acc < 0x80 then [acc]
    else (0x80 ||| (acc % 0x80)) :: encodeVarIntAcc fuel (acc / 0x80)

/-- Modelled from the spec: zig-zag step of the reference encoder; the
least-significant accumulator bit is the sign. -/
def zigZag (v : Int) : Nat := if v < 0 then 2 * (-v).toNat + 1 else 2 * v.toNat

/-- Modelled from the spec: the reference varint encoding of an integer. -/
def encodeVarInt (v : Int) : List Nat := encodeVarIntAcc 64 (zigZag v)

end S2Prot

namespace S2Prot

/-- Final sign step of readVarInt on an in-range (below 2^63) accumulator. -/
def varIntFinish (x : Nat) : Int :=
  if x % 2 = 1 then -((x / 2 : Nat) : Int) else ((x / 2 : Nat) : Int)

theorem get?_of_drop {l : List Nat} {n : Nat} {x : Nat} {post : List Nat}
    (h : l.drop n = x :: post) : l.get? n = some x := by
  have h0 := List.get?_drop l n 0
  rw [h] at h0
  simpa using h0.symm

theorem drop_succ_of_drop {l : List Nat} {n : Nat} {x : Nat} {post : List Nat}
    (h : l.drop n = x :: post) : l.drop (n + 1) = post := by
  rw [← List.tail_drop, h]
  rfl

theorem and127_eq_mod (x : Nat) : x &&& 0x7f = x % 128 :=
  Nat.and_pow_two_sub_one_eq_mod x 7

theorem and128_eq_zero {x : Nat} (h : x < 128) : x &&& 128 = 0 := by
  have h2 := Nat.and_two_pow x 7
  rw [Nat.testBit_lt_two_pow (show x < 2 ^ 7 from h)] at h2
  simpa using h2

theorem or128_and128 {x : Nat} (h : x < 128) : (128 ||| x) &&& 128 = 128 := by
  rw [Nat.and_distrib_right, and128_eq_zero h]
  norm_num

theorem or128_and127 {x : Nat} (h : x < 128) : (128 ||| x) &&& 0x7f = x := by
  rw [Nat.and_distrib_right, and127_eq_mod x, Nat.mod_eq_of_lt h, and127_eq_mod 128,
    Nat.mod_self]
  exact Nat.zero_or x

theorem or_shiftLeft_eq_add {value m k : Nat} (h : value < 2 ^ k) :
    value ||| (m <<< k) = value + m * 2 ^ k := by
  calc value ||| (m <<< k) = value ||| (2 ^ k * m) := by rw [Nat.shiftLeft_eq, mul_comm]
    _ = (2 ^ k * m) ||| value := Nat.lor_comm _ _
    _ = 2 ^ k * m + value := (Nat.mul_add_lt_is_or h m).symm
    _ = value + m * 2 ^ k := by ring

theorem wrap64_eq_of {i : Int} (h1 : -(2 ^ 63) ≤ i) (h2 : i < 2 ^ 63) : wrap64 i = i := by
  unfold wrap64
  omega

theorem toInt64_eq_of {x : Nat} (h : x < 2 ^ 63) : toInt64 x = (x : Int) := if_pos h

theorem fdiv_two_ofNat (x : Nat) : Int.fdiv (x : Int) 2 = ((x / 2 : Nat) : Int) :=
  (Int.ofNat_fdiv x 2).symm

/-- One last-byte step of the readVarInt loop (continuation flag clear). -/
theorem readVarIntLoop_last {acc shift value : Nat} {b : bitPackedBuff} {post : List Nat}
    (fd : Nat) (hacc : acc < 128) (hcb : b.cacheBits = 0)
    (hrest : b.contents.drop b.idx = acc :: post)
    (hvs : value < 2 ^ shift) (hbound : value + acc * 2 ^ shift < 2 ^ 63) :
    readVarIntLoop (fd + 1) shift value b =
      some (varIntFinish (value + acc * 2 ^ shift), { b with idx := b.idx + 1 }) := by
  have hget := get?_of_drop hrest
  have hrb : b.readBits8 = some (acc, { b with idx := b.idx + 1 }) := by
    unfold bitPackedBuff.readBits8
    rw [if_pos hcb, hget]
  have hle : acc * 2 ^ shift ≤ value + acc * 2 ^ shift := Nat.le_add_left _ _
  have hw : w64 (acc <<< shift) = acc <<< shift := by
    rw [Nat.shiftLeft_eq]
    exact w64_eq_of_lt (lt_of_le_of_lt hle (lt_trans hbound (by norm_num)))
  have hv1 : value ||| w64 ((acc &&& 0x7f) <<< shift) = value + acc * 2 ^ shift := by
    rw [and127_eq_mod, Nat.mod_eq_of_lt hacc, hw]
    exact or_shiftLeft_eq_add hvs
  simp only [readVarIntLoop, hrb]
  rw [hv1, and128_eq_zero hacc]
  rw [if_pos rfl, Nat.and_one_is_mod]
  by_cases hpar : (value + acc * 2 ^ shift) % 2 = 1
  · rw [if_pos (by omega), toInt64_eq_of hbound, fdiv_two_ofNat]
    rw [wrap64_eq_of (by omega) (by omega)]
    unfold varIntFinish
    rw [if_pos hpar]
  · rw [if_neg (by omega), toInt64_eq_of hbound, fdiv_two_ofNat]
    unfold varIntFinish
    rw [if_neg hpar]

end S2Prot

namespace S2Prot

/-- Decoding an encoded accumulator: the readVarInt loop consumes exactly the
encoding and yields the sign-decoded accumulator, provided the accumulator
pattern stays below 2^63 (no int64 overflow). -/
theorem readVarIntLoop_encodeAcc :
    ∀ (fuelE : Nat) (acc : Nat), acc < 128 ^ (fuelE + 1) →
    ∀ (shift value : Nat) (b : bitPackedBuff) (post : List Nat) (fuelD : Nat),
      b.cacheBits = 0 →
      b.contents.drop b.idx = encodeVarIntAcc (fuelE + 1) acc ++ post →
      value < 2 ^ shift →
      value + acc * 2 ^ shift < 2 ^ 63 →
      (encodeVarIntAcc (fuelE + 1) acc).length ≤ fuelD →
      readVarIntLoop fuelD shift value b =
        some (varIntFinish (value + acc * 2 ^ shift),
              { b with idx := b.idx + (encodeVarIntAcc (fuelE + 1) acc).length }) := by
  intro fuelE
  induction fuelE with
  | zero =>
    intro acc hacc shift value b post fuelD hcb hrest hvs hbound hfd
    have h128 : acc < 128 := by simpa using hacc
    have henc : encodeVarIntAcc 1 acc = [acc] := by
      unfold encodeVarIntAcc
      rw [if_pos h128]
    rw [henc] at hrest hfd ⊢
    obtain ⟨fd, rfl⟩ : ∃ fd, fuelD = fd + 1 := ⟨fuelD - 1, by simp at hfd; omega⟩
    simpa using readVarIntLoop_last fd h128 hcb (by simpa using hrest) hvs hbound
  | succ fe ih =>
    intro acc hacc shift value b post fuelD hcb hrest hvs hbound hfd
    by_cases h128 : acc < 128
    · have henc : encodeVarIntAcc (fe + 1 + 1) acc = [acc] := by
        unfold encodeVarIntAcc
        rw [if_pos h128]
      rw [henc] at hrest hfd ⊢
      obtain ⟨fd, rfl⟩ : ∃ fd, fuelD = fd + 1 := ⟨fuelD - 1, by simp at hfd; omega⟩
      simpa using readVarIntLoop_last fd h128 hcb (by simpa using hrest) hvs hbound
    · have henc : encodeVarIntAcc (fe + 1 + 1) acc =
          (0x80 ||| acc % 0x80) :: encodeVarIntAcc (fe + 1) (acc / 0x80) := by
        conv_lhs => unfold encodeVarIntAcc
        rw [if_neg h128]
      rw [henc] at hrest hfd ⊢
      obtain ⟨fd, rfl⟩ : ∃ fd, fuelD = fd + 1 := ⟨fuelD - 1, by simp at hfd; omega⟩
      have hget := get?_of_drop (by simpa using hrest)
      have hrb : b.readBits8 = some (0x80 ||| acc % 0x80, { b with idx := b.idx + 1 }) := by
        unfold bitPackedBuff.readBits8
        rw [if_pos hcb, hget]
      have hmod : acc % 128 < 128 := Nat.mod_lt _ (by norm_num)
      have hmle : acc % 128 * 2 ^ shift ≤ acc * 2 ^ shift :=
        Nat.mul_le_mul_right _ (Nat.mod_le _ _)
      have hw : w64 ((acc % 128) <<< shift) = (acc % 128) <<< shift := by
        rw [Nat.shiftLeft_eq]
        exact w64_eq_of_lt (by omega)
      have hdm : 128 * (acc / 128) + acc % 128 = acc := Nat.div_add_mod acc 128
      have hpow : (2 : Nat) ^ (shift + 7) = 2 ^ shift * 128 := by
        rw [pow_add]
        norm_num
      have hacc' : acc / 128 < 128 ^ (fe + 1) := by
        rw [Nat.div_lt_iff_lt_mul (by norm_num)]
        calc acc < 128 ^ (fe + 1 + 1) := hacc
          _ = 128 ^ (fe + 1) * 128 := by rw [pow_succ]
      have hvs' : value + acc % 128 * 2 ^ shift < 2 ^ (shift + 7) := by
        have h127 : acc % 128 * 2 ^ shift ≤ 127 * 2 ^ shift :=
          Nat.mul_le_mul_right _ (by omega)
        rw [hpow]
        omega
      have hval : value + acc % 128 * 2 ^ shift + acc / 128 * 2 ^ (shift + 7) =
          value + acc * 2 ^ shift := by
        rw [hpow]
        calc value + acc % 128 * 2 ^ shift + acc / 128 * (2 ^ shift * 128)
            = value + (128 * (acc / 128) + acc % 128) * 2 ^ shift := by ring
          _ = value + acc * 2 ^ shift := by rw [hdm]
      have hbound' : value + acc % 128 * 2 ^ shift + acc / 128 * 2 ^ (shift + 7) < 2 ^ 63 := by
        rw [hval]
        exact hbound
      have hrest' : ({ b with idx := b.idx + 1 } : bitPackedBuff).contents.drop (b.idx + 1) =
          encodeVarIntAcc (fe + 1) (acc / 0x80) ++ post :=
        drop_succ_of_drop (by simpa using hrest)
      have hfd' : (encodeVarIntAcc (fe + 1) (acc / 0x80)).length ≤ fd := by
        simp at hfd
        omega
      have := ih (acc / 128) hacc' (shift + 7) (value + acc % 128 * 2 ^ shift)
        { b with idx := b.idx + 1 } post fd hcb hrest' hvs' hbound' hfd'
      simp only [readVarIntLoop, hrb]
      rw [or128_and127 hmod, hw, or_shiftLeft_eq_add hvs, or128_and128 hmod]
      rw [if_neg (by norm_num)]
      rw [this, hval]
      congr 2
      simp
      omega

end S2Prot

namespace S2Prot

theorem varIntFinish_zigZag (v : Int) : varIntFinish (zigZag v) = v := by
  unfold varIntFinish zigZag
  by_cases hv : v < 0
  · rw [if_pos hv, if_pos (by omega), show (2 * (-v).toNat + 1) / 2 = (-v).toNat by omega]
    omega
  · rw [if_neg hv, if_neg (by omega), show 2 * v.toNat / 2 = v.toNat by omega]
    omega

end S2Prot

/-- C3 (amended): readVarInt inverts the reference zig-zag varint encoding
(7 data bits per byte low-order first, bit 7 as continuation flag,
least-significant accumulator bit as sign) for every integer v with
-2^62 < v < 2^62, and the byte sequences 0x02, 0x03, 0x80 0x01, 0x81 0x01,
0xAC 0x02 decode to +1, -1, +64, -64, +150. (At v = -2^62 itself the round
trip fails; see the counterexample.) -/
theorem c3_varint_roundtrip (v : Int) (h1 : -(2 ^ 62) < v) (h2 : v < 2 ^ 62) :
    (S2Prot.readVarInt (S2Prot.freshBuff (S2Prot.encodeVarInt v) true)).map Prod.fst = some v ∧
    (S2Prot.readVarInt (S2Prot.freshBuff [0x02] true)).map Prod.fst = some 1 ∧
    (S2Prot.readVarInt (S2Prot.freshBuff [0x03] true)).map Prod.fst = some (-1) ∧
    (S2Prot.readVarInt (S2Prot.freshBuff [0x80, 0x01] true)).map Prod.fst = some 64 ∧
    (S2Prot.readVarInt (S2Prot.freshBuff [0x81, 0x01] true)).map Prod.fst = some (-64) ∧
    (S2Prot.readVarInt (S2Prot.freshBuff [0xAC, 0x02] true)).map Prod.fst = some 150 := by
  refine ⟨?_, rfl, rfl, rfl, rfl, rfl⟩
  have hacc : S2Prot.zigZag v < 2 ^ 63 := by
    unfold S2Prot.zigZag
    split <;> omega
  have hstep := S2Prot.readVarIntLoop_encodeAcc 63 (S2Prot.zigZag v)
    (lt_trans hacc (by norm_num)) 0 0
    (S2Prot.freshBuff (S2Prot.encodeVarInt v) true) []
    ((S2Prot.encodeVarInt v).length - 0 + 1)
    rfl
    (by simp [S2Prot.freshBuff, S2Prot.encodeVarInt])
    (by norm_num)
    (by simpa using hacc)
    (by show (S2Prot.encodeVarIntAcc 64 (S2Prot.zigZag v)).length ≤ _
        unfold S2Prot.encodeVarInt
        omega)
  unfold S2Prot.readVarInt
  simp only [S2Prot.freshBuff] at hstep ⊢
  rw [hstep]
  simp [S2Prot.varIntFinish_zigZag]

/-- C3 counterexample: at v = -2^62, which the claim includes, the zig-zag
accumulator is 2^63 + 1, the signed int64 reading of the decode loop
overflows, and readVarInt returns +2^62 rather than -2^62. -/
theorem c3_counterexample :
    (S2Prot.readVarInt (S2Prot.freshBuff (S2Prot.encodeVarInt (-(2 ^ 62))) true)).map
      Prod.fst = some (2 ^ 62) ∧ ((2 ^ 62 : Int) ≠ -(2 ^ 62)) := by
  constructor
  · rfl
  · norm_num

/-- Witness for c3_varint_roundtrip at v = 150. -/
theorem c3_varint_roundtrip_witness :
    (S2Prot.readVarInt (S2Prot.freshBuff (S2Prot.encodeVarInt 150) true)).map Prod.fst =
      some 150 ∧
    (S2Prot.readVarInt (S2Prot.freshBuff [0x02] true)).map Prod.fst = some 1 ∧
    (S2Prot.readVarInt (S2Prot.freshBuff [0x03] true)).map Prod.fst = some (-1) ∧
    (S2Prot.readVarInt (S2Prot.freshBuff [0x80, 0x01] true)).map Prod.fst = some 64 ∧
    (S2Prot.readVarInt (S2Prot.freshBuff [0x81, 0x01] true)).map Prod.fst = some (-64) ∧
    (S2Prot.readVarInt (S2Prot.freshBuff [0xAC, 0x02] true)).map Prod.fst = some 150 :=
  c3_varint_roundtrip 150 (by norm_num) (by norm_num)

namespace S2Prot

/-- s2pType: the type selector of a type descriptor. -/
inductive s2pType where
  | s2pInt
  | s2pStruct
  | s2pChoice
  | s2pArr
  | s2pBitArr
  | s2pBlob
  | s2pOptional
  | s2pBool
  | s2pFourCC
  | s2pNull
deriving Repr, DecidableEq

/-- field: a field of a struct or choice type descriptor. -/
structure field where
  name : String
  typeid : Nat
  tag : Int
  isNameParent : Bool
deriving Repr, DecidableEq

/-- typeInfo: decoding info for a specific type. The decoders use only
offset64 of the two offsets of the source; bits is the declared bit width. -/
structure typeInfo where
  s2pType : s2pType
  offset64 : Int
  bits : Nat
  fields : List field
  typeid : Nat
deriving Repr, DecidableEq

/-- A decoded value (Go interface values produced by the decoders): int64,
bool, string (blobs and four-character codes, as raw bytes), BitArr, slice,
Struct (a Go map from names to values, modelled as an association list), or
nil. -/
inductive Value where
  | int (i : Int)
  | bool (b : Bool)
  | str (s : List Nat)
  | bitArr (count : Int) (data : List Nat)
  | arr (elems : List Value)
  | strct (entries : List (String × Value))
  | null
deriving Repr

/-- Go map assignment s[k] = v on the association-list model of Struct:
replace the entry in place when the key exists, otherwise append. -/
def structPut : List (String × Value) → String → Value → List (String × Value)
  | [], k, v => [(k, v)]
  | (k0, v0) :: rest, k, v =>
    if k0 = k then (k0, v) :: rest else (k0, v0) :: structPut rest k v

/-- Copy every entry of s2 into s (the parent-splicing copy loop). -/
def structPutAll (s : List (String × Value)) (s2 : List (String × Value)) :
    List (String × Value) :=
  s2.foldl (fun acc kv => structPut acc kv.1 kv.2) s

/-- Go map lookup s[k]. -/
def structGet : List (String × Value) → String → Option Value
  | [], _ => none
  | (k0, v0) :: rest, k => if k0 = k then some v0 else structGet rest k

/-- Result of running embedded code that may panic (a recoverable Go run-time
error: index out of range, failed type assertion, make with negative size) or
run out of recursion fuel (no verdict). -/
inductive DRes (α : Type) where
  | ok : α → DRes α
  | panic : DRes α
  | fuelOut : DRes α
deriving Repr

/-- Lift a fallible buffer read: none is a run-time panic. -/
def orPanic {α : Type} : Option α → DRes α
  | none => .panic
  | some a => .ok a

/-- bitpackeddec.go, the readInt helper of instance:
offset64 + readBits(byte(bits)) in int64 arithmetic. -/
def bpdReadInt (ti : typeInfo) (b : bitPackedBuff) : DRes (Int × bitPackedBuff) :=
  match b.readBits (ti.bits % 256) with
  | none => .panic
  | some (v, b1) => .ok (wrap64 (ti.offset64 + toInt64 v), b1)

mutual

/-- bitpackeddec.go instance: decode a value of the given typeid with the
bit-packed decoder. The fuel bounds the total number of decode steps. -/
def bitPackedDecInstance (tis : List typeInfo) : Nat → Nat → bitPackedBuff →
    DRes (Value × bitPackedBuff)
  | 0, _, _ => .fuelOut
  | fuel + 1, typeid, b =>
    match tis.get? typeid with
    | none => .panic
    | some ti =>
      match ti.s2pType with
      | .s2pInt =>
        match bpdReadInt ti b with
        | .panic => .panic
        | .fuelOut => .fuelOut
        | .ok (v, b1) => .ok (.int v, b1)
      | .s2pStruct => bpdStructFields tis fuel ti.fields ti.fields.length [] b
      | .s2pChoice =>
        match bpdReadInt ti b with
        | .panic => .panic
        | .fuelOut => .fuelOut
        | .ok (tag, b1) =>
          if tag > (ti.fields.length : Int) then .ok (.null, b1)
          else if tag < 0 then .panic
          else
            match ti.fields.get? tag.toNat with
            | none => .panic
            | some f =>
              match bitPackedDecInstance tis fuel f.typeid b1 with
              | .panic => .panic
              | .fuelOut => .fuelOut
              | .ok (v, b2) => .ok (.strct [(f.name, v)], b2)
      | .s2pArr =>
        match bpdReadInt ti b with
        | .panic => .panic
        | .fuelOut => .fuelOut
        | .ok (length, b1) =>
          if length < 0 then .panic
          else bpdArrElems tis fuel length.toNat ti.typeid [] b1
      | .s2pBitArr =>
        match bpdReadInt ti b with
        | .panic => .panic
        | .fuelOut => .fuelOut
        | .ok (length, b1) =>
          if length < 0 then .panic
          else
            let n := length.toNat
            match b1.readUnaligned ((n / 8 : Nat) : Int) with
            | none => .panic
            | some (whole, b2) =>
              if n % 8 ≠ 0 then
                match b2.readBits (n % 8) with
                | none => .panic
                | some (v, b3) => .ok (.bitArr length (whole ++ [byte8 v]), b3)
              else .ok (.bitArr length whole, b2)
      | .s2pBlob =>
        match bpdReadInt ti b with
        | .panic => .panic
        | .fuelOut => .fuelOut
        | .ok (length, b1) =>
          match b1.readAligned length with
          | none => .panic
          | some (bytes, b2) => .ok (.str bytes, b2)
      | .s2pOptional =>
        match b.readBits1 with
        | none => .panic
        | some (present, b1) =>
          if present then bitPackedDecInstance tis fuel ti.typeid b1
          else .ok (.null, b1)
      | .s2pBool =>
        match b.readBits1 with
        | none => .panic
        | some (v, b1) => .ok (.bool v, b1)
      | .s2pFourCC =>
        match b.readUnaligned 4 with
        | none => .panic
        | some (bytes, b1) => .ok (.str bytes, b1)
      | .s2pNull => .ok (.null, b)
termination_by structural fuel => fuel

/-- bitpackeddec.go instance, struct case: iterate the declared fields,
decoding each and applying the parent-splicing rules. -/
def bpdStructFields (tis : List typeInfo) : Nat → List field → Nat →
    List (String × Value) → bitPackedBuff → DRes (Value × bitPackedBuff)
  | 0, _, _, _, _ => .fuelOut
  | _fuel + 1, [], _, s, b => .ok (.strct s, b)
  | fuel + 1, f :: rest, totalFields, s, b =>
    match bitPackedDecInstance tis fuel f.typeid b with
    | .panic => .panic
    | .fuelOut => .fuelOut
    | .ok (v, b1) =>
      if f.isNameParent then
        match v with
        | .strct s2 => bpdStructFields tis fuel rest totalFields (structPutAll s s2) b1
        | _ =>
          if totalFields = 1 then .ok (v, b1)
          else bpdStructFields tis fuel rest totalFields (structPut s f.name v) b1
      else bpdStructFields tis fuel rest totalFields (structPut s f.name v) b1
termination_by structural fuel => fuel

/-- bitpackeddec.go instance, array case: decode the given number of elements. -/
def bpdArrElems (tis : List typeInfo) : Nat → Nat → Nat → List Value →
    bitPackedBuff → DRes (Value × bitPackedBuff)
  | 0, _, _, _, _ => .fuelOut
  | _fuel + 1, 0, _, acc, b => .ok (.arr acc.reverse, b)
  | fuel + 1, k + 1, tid, acc, b =>
    match bitPackedDecInstance tis fuel tid b with
    | .panic => .panic
    | .fuelOut => .fuelOut
    | .ok (v, b1) => bpdArrElems tis fuel k tid (v :: acc) b1
termination_by structural fuel => fuel

end

end S2Prot

namespace S2Prot

/-- versioneddec.go: find the schema field with the given wire tag
(first match in declaration order). -/
def findField : List field → Int → Option field
  | [], _ => none
  | f :: rest, tag => if f.tag = tag then some f else findField rest tag

mutual

/-- versioneddec.go skipInstance: read and discard an instance whose type is
deduced from the self-describing field type byte. -/
def skipInstance : Nat → bitPackedBuff → DRes bitPackedBuff
  | 0, _ => .fuelOut
  | fuel + 1, b =>
    match b.readBits8 with
    | none => .panic
    | some (fieldType, b1) =>
      if fieldType = 0 then
        match readVarInt b1 with
        | none => .panic
        | some (i, b2) => skipArr fuel (i.toNat) b2
      else if fieldType = 1 then
        match readVarInt b1 with
        | none => .panic
        | some (len, b2) =>
          match b2.readAligned (Int.tdiv (len + 7) 8) with
          | none => .panic
          | some (_, b3) => .ok b3
      else if fieldType = 2 then
        match readVarInt b1 with
        | none => .panic
        | some (len, b2) =>
          match b2.readAligned len with
          | none => .panic
          | some (_, b3) => .ok b3
      else if fieldType = 3 then
        match readVarInt b1 with
        | none => .panic
        | some (_, b2) => skipInstance fuel b2
      else if fieldType = 4 then
        match b1.readBits8 with
        | none => .panic
        | some (present, b2) =>
          if present ≠ 0 then skipInstance fuel b2 else .ok b2
      else if fieldType = 5 then
        match readVarInt b1 with
        | none => .panic
        | some (i, b2) => skipStructPairs fuel (i.toNat) b2
      else if fieldType = 6 then
        match b1.readBits8 with
        | none => .panic
        | some (_, b2) => .ok b2
      else if fieldType = 7 then
        match b1.readAligned 4 with
        | none => .panic
        | some (_, b2) => .ok b2
      else if fieldType = 8 then
        match b1.readAligned 8 with
        | none => .panic
        | some (_, b2) => .ok b2
      else if fieldType = 9 then
        match readVarInt b1 with
        | none => .panic
        | some (_, b2) => .ok b2
      else .ok b1
termination_by structural fuel => fuel

/-- versioneddec.go skipInstance, array case: skip i instances
(the Go loop runs while i > 0, so a non-positive count skips nothing). -/
def skipArr : Nat → Nat → bitPackedBuff → DRes bitPackedBuff
  | 0, _, _ => .fuelOut
  | _fuel + 1, 0, b => .ok b
  | fuel + 1, k + 1, b =>
    match skipInstance fuel b with
    | .panic => .panic
    | .fuelOut => .fuelOut
    | .ok b1 => skipArr fuel k b1
termination_by structural fuel => fuel

/-- versioneddec.go skipInstance, struct case: skip i (tag, value) pairs. -/
def skipStructPairs : Nat → Nat → bitPackedBuff → DRes bitPackedBuff
  | 0, _, _ => .fuelOut
  | _fuel + 1, 0, b => .ok b
  | fuel + 1, k + 1, b =>
    match readVarInt b with
    | none => .panic
    | some (_, b1) =>
      match skipInstance fuel b1 with
      | .panic => .panic
      | .fuelOut => .fuelOut
      | .ok b2 => skipStructPairs fuel k b2
termination_by structural fuel => fuel

end

mutual

/-- versioneddec.go instance: decode a value of the given typeid with the
versioned (self-describing, tag-framed) decoder. -/
def versionedDecInstance (tis : List typeInfo) : Nat → Nat → bitPackedBuff →
    DRes (Value × bitPackedBuff)
  | 0, _, _ => .fuelOut
  | fuel + 1, typeid, b =>
    match tis.get? typeid with
    | none => .panic
    | some ti =>
      match ti.s2pType with
      | .s2pInt =>
        match b.readBits8 with
        | none => .panic
        | some (_, b1) =>
          match readVarInt b1 with
          | none => .panic
          | some (v, b2) => .ok (.int v, b2)
      | .s2pStruct =>
        match b.readBits8 with
        | none => .panic
        | some (_, b1) =>
          match readVarInt b1 with
          | none => .panic
          | some (length, b2) => vdStructPairs tis fuel length.toNat ti [] b2
      | .s2pChoice =>
        match b.readBits8 with
        | none => .panic
        | some (_, b1) =>
          match readVarInt b1 with
          | none => .panic
          | some (tag, b2) =>
            if tag > (ti.fields.length : Int) then .ok (.null, b2)
            else if tag < 0 then .panic
            else
              match ti.fields.get? tag.toNat with
              | none => .panic
              | some f =>
                match versionedDecInstance tis fuel f.typeid b2 with
                | .panic => .panic
                | .fuelOut => .fuelOut
                | .ok (v, b3) => .ok (.strct [(f.name, v)], b3)
      | .s2pArr =>
        match b.readBits8 with
        | none => .panic
        | some (_, b1) =>
          match readVarInt b1 with
          | none => .panic
          | some (length, b2) =>
            if length < 0 then .panic
            else vdArrElems tis fuel length.toNat ti.typeid [] b2
      | .s2pBitArr =>
        match b.readBits8 with
        | none => .panic
        | some (_, b1) =>
          match readVarInt b1 with
          | none => .panic
          | some (length, b2) =>
            match b2.readAligned (Int.tdiv (length + 7) 8) with
            | none => .panic
            | some (bytes, b3) => .ok (.bitArr length bytes, b3)
      | .s2pBlob =>
        match b.readBits8 with
        | none => .panic
        | some (_, b1) =>
          match readVarInt b1 with
          | none => .panic
          | some (length, b2) =>
            match b2.readAligned length with
            | none => .panic
            | some (bytes, b3) => .ok (.str bytes, b3)
      | .s2pOptional =>
        match b.readBits8 with
        | none => .panic
        | some (_, b1) =>
          match b1.readBits8 with
          | none => .panic
          | some (present, b2) =>
            if present ≠ 0 then versionedDecInstance tis fuel ti.typeid b2
            else .ok (.null, b2)
      | .s2pBool =>
        match b.readBits8 with
        | none => .panic
        | some (_, b1) =>
          match b1.readBits8 with
          | none => .panic
          | some (v, b2) => .ok (.bool (v ≠ 0), b2)
      | .s2pFourCC =>
        match b.readBits8 with
        | none => .panic
        | some (_, b1) =>
          match b1.readAligned 4 with
          | none => .panic
          | some (bytes, b2) => .ok (.str bytes, b2)
      | .s2pNull => .ok (.null, b)
termination_by structural fuel => fuel

/-- versioneddec.go instance, struct case: read (tag, value) pairs, looking
each tag up in the schema; unknown tags are skipped, known ones are decoded
with the parent-splicing rules. -/
def vdStructPairs (tis : List typeInfo) : Nat → Nat → typeInfo →
    List (String × Value) → bitPackedBuff → DRes (Value × bitPackedBuff)
  | 0, _, _, _, _ => .fuelOut
  | _fuel + 1, 0, _, s, b => .ok (.strct s, b)
  | fuel + 1, k + 1, ti, s, b =>
    match readVarInt b with
    | none => .panic
    | some (tag, b1) =>
      match findField ti.fields tag with
      | none =>
        match skipInstance fuel b1 with
        | .panic => .panic
        | .fuelOut => .fuelOut
        | .ok b2 => vdStructPairs tis fuel k ti s b2
      | some f =>
        match versionedDecInstance tis fuel f.typeid b1 with
        | .panic => .panic
        | .fuelOut => .fuelOut
        | .ok (v, b2) =>
          if f.isNameParent then
            match v with
            | .strct s2 => vdStructPairs tis fuel k ti (structPutAll s s2) b2
            | _ =>
              if ti.fields.length = 1 then .ok (v, b2)
              else vdStructPairs tis fuel k ti (structPut s f.name v) b2
          else vdStructPairs tis fuel k ti (structPut s f.name v) b2
termination_by structural fuel => fuel

/-- versioneddec.go instance, array case: decode the given number of elements. -/
def vdArrElems (tis : List typeInfo) : Nat → Nat → Nat → List Value →
    bitPackedBuff → DRes (Value × bitPackedBuff)
  | 0, _, _, _, _ => .fuelOut
  | _fuel + 1, 0, _, acc, b => .ok (.arr acc.reverse, b)
  | fuel + 1, k + 1, tid, acc, b =>
    match versionedDecInstance tis fuel tid b with
    | .panic => .panic
    | .fuelOut => .fuelOut
    | .ok (v, b1) => vdArrElems tis fuel k tid (v :: acc) b1
termination_by structural fuel => fuel

end

end S2Prot

namespace S2Prot

/-- Projection of a decode result onto the decoded value. -/
def decValue : DRes (Value × bitPackedBuff) → Option Value
  | .ok (v, _) => some v
  | .panic => none
  | .fuelOut => none

/-- Type table of a root Optional whose inner type is Bool. -/
def optBoolTis : List typeInfo :=
  [⟨.s2pOptional, 0, 0, [], 1⟩, ⟨.s2pBool, 0, 0, [], 0⟩]

end S2Prot

/-- C6 counterexample: with the bit-packed decoder and a root Optional of
Bool, the single input byte 0xC0 decodes to Null, not to true as the claim
states (the presence bit is the LOWEST bit of the byte, and 0xC0 has a clear
low bit). -/
theorem c6_counterexample :
    S2Prot.decValue (S2Prot.bitPackedDecInstance S2Prot.optBoolTis 9 0
      (S2Prot.freshBuff [0xC0] true)) = some S2Prot.Value.null ∧
    some S2Prot.Value.null ≠ some (S2Prot.Value.bool true) :=
  ⟨rfl, fun h => S2Prot.Value.noConfusion (Option.some.inj h)⟩

/-- C6 (amended): with the bit-packed decoder and a root Optional of Bool,
the single input bytes 0xC0, 0x40 and 0x00 all decode to Null (their lowest
bit, the presence bit, is 0), while 0x03 decodes to true and 0x01 decodes to
false (presence and value are the two lowest bits of the byte). -/
theorem c6_amended_optional_bool :
    S2Prot.decValue (S2Prot.bitPackedDecInstance S2Prot.optBoolTis 9 0
      (S2Prot.freshBuff [0xC0] true)) = some S2Prot.Value.null ∧
    S2Prot.decValue (S2Prot.bitPackedDecInstance S2Prot.optBoolTis 9 0
      (S2Prot.freshBuff [0x40] true)) = some S2Prot.Value.null ∧
    S2Prot.decValue (S2Prot.bitPackedDecInstance S2Prot.optBoolTis 9 0
      (S2Prot.freshBuff [0x00] true)) = some S2Prot.Value.null ∧
    S2Prot.decValue (S2Prot.bitPackedDecInstance S2Prot.optBoolTis 9 0
      (S2Prot.freshBuff [0x03] true)) = some (S2Prot.Value.bool true) ∧
    S2Prot.decValue (S2Prot.bitPackedDecInstance S2Prot.optBoolTis 9 0
      (S2Prot.freshBuff [0x01] true)) = some (S2Prot.Value.bool false) :=
  ⟨rfl, rfl, rfl, rfl, rfl⟩

namespace S2Prot

theorem readUnalignedSmallLoop_length :
    ∀ (k : Nat) (b : bitPackedBuff) (buf : List Nat) (b' : bitPackedBuff),
      readUnalignedSmallLoop k b = some (buf, b') → buf.length = k := by
  intro k
  induction k with
  | zero =>
    intro b buf b' h
    simp [readUnalignedSmallLoop] at h
    simp [h.1.symm]
  | succ k ih =>
    intro b buf b' h
    unfold readUnalignedSmallLoop at h
    split at h
    · exact absurd h (by simp)
    · next v b1 hrb =>
      split at h
      · exact absurd h (by simp)
      · next rest b2 hrec =>
        simp only [Option.some.injEq, Prod.mk.injEq] at h
        rw [← h.1]
        simp [ih b1 rest b2 hrec]

theorem readUnalignedBigLoop_length :
    ∀ (k : Nat) (contents : List Nat) (mask cache idx : Nat) (buf : List Nat)
      (c1 i1 : Nat),
      readUnalignedBigLoop contents mask k cache idx = some (buf, c1, i1) →
      buf.length = k := by
  intro k
  induction k with
  | zero =>
    intro contents mask cache idx buf c1 i1 h
    simp [readUnalignedBigLoop] at h
    simp [h.1.symm]
  | succ k ih =>
    intro contents mask cache idx buf c1 i1 h
    unfold readUnalignedBigLoop at h
    split at h
    · exact absurd h (by simp)
    · next c hg =>
      split at h
      · exact absurd h (by simp)
      · next rest cache1 idx1 hrec =>
        simp only [Option.some.injEq, Prod.mk.injEq] at h
        rw [← h.1]
        simp [ih contents mask c (idx + 1) rest cache1 idx1 hrec]

theorem readUnalignedLittleLoop_length :
    ∀ (k : Nat) (contents : List Nat) (mask cacheBits compl0 cache idx : Nat)
      (buf : List Nat) (c1 i1 : Nat),
      readUnalignedLittleLoop contents mask cacheBits compl0 k cache idx =
        some (buf, c1, i1) → buf.length = k := by
  intro k
  induction k with
  | zero =>
    intro contents mask cacheBits compl0 cache idx buf c1 i1 h
    simp [readUnalignedLittleLoop] at h
    simp [h.1.symm]
  | succ k ih =>
    intro contents mask cacheBits compl0 cache idx buf c1 i1 h
    unfold readUnalignedLittleLoop at h
    split at h
    · exact absurd h (by simp)
    · next c hg =>
      split at h
      · exact absurd h (by simp)
      · next rest cache1 idx1 hrec =>
        simp only [Option.some.injEq, Prod.mk.injEq] at h
        rw [← h.1]
        simp [ih contents mask cacheBits compl0 (c >>> compl0) (idx + 1) rest cache1 idx1 hrec]

/-- readUnaligned always returns exactly n bytes when it succeeds. -/
theorem readUnaligned_length {b : bitPackedBuff} {n : Int} {buf : List Nat}
    {b' : bitPackedBuff} (h : b.readUnaligned n = some (buf, b')) :
    buf.length = n.toNat := by
  unfold bitPackedBuff.readUnaligned at h
  by_cases hneg : n < 0
  · rw [if_pos hneg] at h
    exact absurd h (by simp)
  rw [if_neg hneg] at h
  by_cases h0 : n.toNat = 0
  · rw [if_pos h0] at h
    simp at h
    simp [h.1.symm, h0]
  rw [if_neg h0] at h
  by_cases hcb : b.cacheBits = 0
  · rw [if_pos hcb] at h
    by_cases hidx : b.contents.length < b.idx
    · rw [if_pos hidx] at h
      exact absurd h (by simp)
    rw [if_neg hidx] at h
    simp at h
    rw [← h.1]
    simp only [List.length_append, List.length_take, List.length_drop, List.length_replicate]
    omega
  rw [if_neg hcb] at h
  by_cases h2 : n.toNat ≤ 2
  · rw [if_pos h2] at h
    exact readUnalignedSmallLoop_length n.toNat b buf b' h
  rw [if_neg h2] at h
  by_cases hbe : b.bigEndian
  · rw [if_pos hbe] at h
    cases hloop : readUnalignedBigLoop b.contents (bitMask (8 - b.cacheBits)) n.toNat
        (byte8 (b.cache <<< (8 - b.cacheBits))) b.idx with
    | none => rw [hloop] at h; exact absurd h (by simp)
    | some r =>
      obtain ⟨rbuf, rc, ri⟩ := r
      rw [hloop] at h
      simp at h
      rw [← h.1]
      exact readUnalignedBigLoop_length n.toNat b.contents _ _ _ rbuf rc ri hloop
  · rw [if_neg hbe] at h
    cases hloop : readUnalignedLittleLoop b.contents (bitMask b.cacheBits) b.cacheBits
        (8 - b.cacheBits) n.toNat b.cache b.idx with
    | none => rw [hloop] at h; exact absurd h (by simp)
    | some r =>
      obtain ⟨rbuf, rc, ri⟩ := r
      rw [hloop] at h
      simp at h
      rw [← h.1]
      exact readUnalignedLittleLoop_length n.toNat b.contents _ _ _ _ _ rbuf rc ri hloop

end S2Prot

namespace S2Prot

/-- Type table of a root BitArray whose bit count is encoded as (0, 6). -/
def bitArrTis : List typeInfo := [⟨.s2pBitArr, 0, 6, [], 0⟩]

end S2Prot

/-- C5 counterexample: bit-count (0,6) followed by the bytes 0x0A 0xFF 0xFF
decodes the bit-count 10; the final two bits read have value 3 (binary 11),
and the trailing byte of data is 0x03 — the final bits sit in the LOW bits of
the trailing byte, while the claim would put them in the high bits
(0x03 <<< 6 = 0xC0). -/
theorem c5_counterexample :
    S2Prot.decValue (S2Prot.bitPackedDecInstance S2Prot.bitArrTis 9 0
      (S2Prot.freshBuff [0x0A, 0xFF, 0xFF] true)) =
      some (S2Prot.Value.bitArr 10 [0x3F, 0x03]) ∧
    (0x03 : Nat) ≠ 0x03 <<< 6 :=
  ⟨rfl, by decide⟩

/-- C5 (amended): when the bit-packed decoder decodes a BitArray whose decoded
bit-count n satisfies n mod 8 ≠ 0, the count is nonnegative, the decoder reads
⌊n/8⌋ unaligned bytes and then reads the final n mod 8 bits, placing them as a
plain number into the LOW bits of the trailing byte of data; count = n and
data has length ⌈n/8⌉. -/
theorem c5_amended_bitarray (tis : List S2Prot.typeInfo) (typeid : Nat)
    (ti : S2Prot.typeInfo) (fuel : Nat) (b : S2Prot.bitPackedBuff) (n : Int)
    (b1 : S2Prot.bitPackedBuff) (v : S2Prot.Value) (bEnd : S2Prot.bitPackedBuff)
    (hti : tis.get? typeid = some ti) (hk : ti.s2pType = .s2pBitArr)
    (hlen : S2Prot.bpdReadInt ti b = .ok (n, b1)) (hmod : n.toNat % 8 ≠ 0)
    (hrun : S2Prot.bitPackedDecInstance tis (fuel + 1) typeid b = .ok (v, bEnd)) :
    0 ≤ n ∧
    ∃ whole b2 tb b3,
      b1.readUnaligned ((n.toNat / 8 : Nat) : Int) = some (whole, b2) ∧
      whole.length = n.toNat / 8 ∧
      b2.readBits (n.toNat % 8) = some (tb, b3) ∧ b3 = bEnd ∧
      v = .bitArr n (whole ++ [S2Prot.byte8 tb]) ∧
      (whole ++ [S2Prot.byte8 tb]).length = (n.toNat + 7) / 8 := by
  simp only [S2Prot.bitPackedDecInstance, hti, hk, hlen] at hrun
  split at hrun
  · exact absurd hrun (by simp)
  · next hneg =>
    refine ⟨by omega, ?_⟩
    split at hrun
    · exact absurd hrun (by simp)
    · next whole b2 hu =>
      split at hrun
      · exact absurd hrun (by simp)
      · next tb b3 hb =>
        simp only [S2Prot.DRes.ok.injEq, Prod.mk.injEq] at hrun
        have hwl := S2Prot.readUnaligned_length hu
        rw [Int.toNat_ofNat] at hwl
        refine ⟨whole, b2, tb, b3, hu, hwl, hb, hrun.2, hrun.1.symm, ?_⟩
        have hl2 : (whole ++ [S2Prot.byte8 tb]).length = whole.length + 1 := by simp
        omega

/-- Witness for c5_amended_bitarray: bit-count (0,6) over bytes 0x0A 0xFF 0xFF
(bit-count 10, trailing bits 11). -/
theorem c5_amended_bitarray_witness :
    0 ≤ (10 : Int) ∧
    ∃ whole b2 tb b3,
      (⟨[0x0A, 0xFF, 0xFF], true, 1, 0, 2⟩ : S2Prot.bitPackedBuff).readUnaligned
        (((10 : Int).toNat / 8 : Nat) : Int) = some (whole, b2) ∧
      whole.length = (10 : Int).toNat / 8 ∧
      b2.readBits ((10 : Int).toNat % 8) = some (tb, b3) ∧
      b3 = (⟨[0x0A, 0xFF, 0xFF], true, 2, 3, 0⟩ : S2Prot.bitPackedBuff) ∧
      S2Prot.Value.bitArr 10 [0x3F, 0x03] =
        .bitArr 10 (whole ++ [S2Prot.byte8 tb]) ∧
      (whole ++ [S2Prot.byte8 tb]).length = ((10 : Int).toNat + 7) / 8 :=
  c5_amended_bitarray S2Prot.bitArrTis 0 ⟨.s2pBitArr, 0, 6, [], 0⟩ 8
    (S2Prot.freshBuff [0x0A, 0xFF, 0xFF] true) 10
    ⟨[0x0A, 0xFF, 0xFF], true, 1, 0, 2⟩
    (S2Prot.Value.bitArr 10 [0x3F, 0x03])
    ⟨[0x0A, 0xFF, 0xFF], true, 2, 3, 0⟩
    rfl rfl rfl (by decide) rfl

namespace S2Prot

/-- Bit-packed Choice table: one variant (typeid 1) with a 2-bit tag. -/
def choiceTis : List typeInfo :=
  [⟨.s2pChoice, 0, 2, [⟨"x", 1, 0, false⟩], 0⟩, ⟨.s2pInt, 0, 3, [], 0⟩]

/-- Versioned Choice table: one variant (typeid 1). -/
def vChoiceTis : List typeInfo :=
  [⟨.s2pChoice, 0, 0, [⟨"x", 1, 0, false⟩], 0⟩, ⟨.s2pInt, 0, 0, [], 0⟩]

end S2Prot

/-- C4 counterexample: a decoded Choice tag equal to len(fields) does NOT
yield Null — both decoders run into the index panic fields[tag] (the source
guards only tag > len(fields)). Bit-packed: tag bits 01 decode tag 1 with one
declared variant. Versioned: wire varint 0x02 decodes tag 1. -/
theorem c4_counterexample :
    (¬ ∃ b', S2Prot.bitPackedDecInstance S2Prot.choiceTis 9 0
        (S2Prot.freshBuff [0x01] true) = .ok (.null, b')) ∧
    S2Prot.bitPackedDecInstance S2Prot.choiceTis 9 0
      (S2Prot.freshBuff [0x01] true) = .panic ∧
    (¬ ∃ b', S2Prot.versionedDecInstance S2Prot.vChoiceTis 9 0
        (S2Prot.freshBuff [0x03, 0x02] true) = .ok (.null, b')) ∧
    S2Prot.versionedDecInstance S2Prot.vChoiceTis 9 0
      (S2Prot.freshBuff [0x03, 0x02] true) = .panic := by
  refine ⟨?_, rfl, ?_, rfl⟩
  · rintro ⟨b', h⟩
    rw [show S2Prot.bitPackedDecInstance S2Prot.choiceTis 9 0
        (S2Prot.freshBuff [0x01] true) = .panic from rfl] at h
    exact S2Prot.DRes.noConfusion h
  · rintro ⟨b', h⟩
    rw [show S2Prot.versionedDecInstance S2Prot.vChoiceTis 9 0
        (S2Prot.freshBuff [0x03, 0x02] true) = .panic from rfl] at h
    exact S2Prot.DRes.noConfusion h

/-- C4 (amended): in both decoders a Choice whose decoded tag t satisfies
t > len(fields) yields Null; t = len(fields) and negative t hit the
fields[tag] index panic (a decode failure caught only at outer recovery
boundaries); an in-range tag yields the single-field struct
with the selected variant's name and decoded value. -/
theorem c4_amended_choice_tags :
    (∀ (tis : List S2Prot.typeInfo) (typeid : Nat) (ti : S2Prot.typeInfo)
       (fuel : Nat) (b : S2Prot.bitPackedBuff) (tag : Int) (b1 : S2Prot.bitPackedBuff),
       tis.get? typeid = some ti → ti.s2pType = .s2pChoice →
       S2Prot.bpdReadInt ti b = .ok (tag, b1) →
       ((tag > (ti.fields.length : Int) →
           S2Prot.bitPackedDecInstance tis (fuel + 1) typeid b = .ok (.null, b1)) ∧
        (tag = (ti.fields.length : Int) →
           S2Prot.bitPackedDecInstance tis (fuel + 1) typeid b = .panic) ∧
        (tag < 0 →
           S2Prot.bitPackedDecInstance tis (fuel + 1) typeid b = .panic) ∧
        (∀ (f : S2Prot.field) (v : S2Prot.Value) (b2 : S2Prot.bitPackedBuff),
           0 ≤ tag → ti.fields.get? tag.toNat = some f →
           S2Prot.bitPackedDecInstance tis fuel f.typeid b1 = .ok (v, b2) →
           S2Prot.bitPackedDecInstance tis (fuel + 1) typeid b =
             .ok (.strct [(f.name, v)], b2)))) ∧
    (∀ (tis : List S2Prot.typeInfo) (typeid : Nat) (ti : S2Prot.typeInfo)
       (fuel : Nat) (b : S2Prot.bitPackedBuff) (ft : Nat) (b1 : S2Prot.bitPackedBuff)
       (tag : Int) (b2 : S2Prot.bitPackedBuff),
       tis.get? typeid = some ti → ti.s2pType = .s2pChoice →
       b.readBits8 = some (ft, b1) → S2Prot.readVarInt b1 = some (tag, b2) →
       ((tag > (ti.fields.length : Int) →
           S2Prot.versionedDecInstance tis (fuel + 1) typeid b = .ok (.null, b2)) ∧
        (tag = (ti.fields.length : Int) →
           S2Prot.versionedDecInstance tis (fuel + 1) typeid b = .panic) ∧
        (tag < 0 →
           S2Prot.versionedDecInstance tis (fuel + 1) typeid b = .panic) ∧
        (∀ (f : S2Prot.field) (v : S2Prot.Value) (b3 : S2Prot.bitPackedBuff),
           0 ≤ tag → ti.fields.get? tag.toNat = some f →
           S2Prot.versionedDecInstance tis fuel f.typeid b2 = .ok (v, b3) →
           S2Prot.versionedDecInstance tis (fuel + 1) typeid b =
             .ok (.strct [(f.name, v)], b3)))) := by
  constructor
  · intro tis typeid ti fuel b tag b1 hti hk hlen
    refine ⟨?_, ?_, ?_, ?_⟩
    · intro hgt
      simp only [S2Prot.bitPackedDecInstance, hti, hk, hlen]
      rw [if_pos hgt]
    · intro heq
      simp only [S2Prot.bitPackedDecInstance, hti, hk, hlen]
      rw [if_neg (by omega), if_neg (by omega)]
      have : ti.fields.get? tag.toNat = none := by
        rw [List.get?_eq_none]
        omega
      rw [this]
    · intro hneg
      simp only [S2Prot.bitPackedDecInstance, hti, hk, hlen]
      rw [if_neg (by omega), if_pos hneg]
    · intro f v b2 hge hf hinner
      have hlt : tag.toNat < ti.fields.length := by
        by_contra hcon
        rw [List.get?_eq_none.mpr (by omega)] at hf
        exact Option.noConfusion hf
      simp only [S2Prot.bitPackedDecInstance, hti, hk, hlen]
      rw [if_neg (by omega), if_neg (by omega)]
      simp only [hf, hinner]
  · intro tis typeid ti fuel b ft b1 tag b2 hti hk hrb hvi
    refine ⟨?_, ?_, ?_, ?_⟩
    · intro hgt
      simp only [S2Prot.versionedDecInstance, hti, hk, hrb, hvi]
      rw [if_pos hgt]
    · intro heq
      simp only [S2Prot.versionedDecInstance, hti, hk, hrb, hvi]
      rw [if_neg (by omega), if_neg (by omega)]
      have : ti.fields.get? tag.toNat = none := by
        rw [List.get?_eq_none]
        omega
      rw [this]
    · intro hneg
      simp only [S2Prot.versionedDecInstance, hti, hk, hrb, hvi]
      rw [if_neg (by omega), if_pos hneg]
    · intro f v b3 hge hf hinner
      have hlt : tag.toNat < ti.fields.length := by
        by_contra hcon
        rw [List.get?_eq_none.mpr (by omega)] at hf
        exact Option.noConfusion hf
      simp only [S2Prot.versionedDecInstance, hti, hk, hrb, hvi]
      rw [if_neg (by omega), if_neg (by omega)]
      simp only [hf, hinner]

/-- Witness for c4_amended_choice_tags: the bit-packed Choice over one variant
with tag bits 10 (decoded tag 2 > 1) yields Null, and the versioned Choice
over wire bytes 0x03 0x04 (decoded tag 2 > 1) yields Null. -/
theorem c4_amended_choice_tags_witness :
    S2Prot.bitPackedDecInstance S2Prot.choiceTis 9 0 (S2Prot.freshBuff [0x02] true) =
      .ok (.null, ⟨[0x02], true, 1, 0, 6⟩) ∧
    S2Prot.versionedDecInstance S2Prot.vChoiceTis 9 0
      (S2Prot.freshBuff [0x03, 0x04] true) =
      .ok (.null, ⟨[0x03, 0x04], true, 2, 0, 0⟩) := by
  constructor
  · exact (c4_amended_choice_tags.1 S2Prot.choiceTis 0 ⟨.s2pChoice, 0, 2,
      [⟨"x", 1, 0, false⟩], 0⟩ 8 (S2Prot.freshBuff [0x02] true) 2
      ⟨[0x02], true, 1, 0, 6⟩ rfl rfl rfl).1 (by norm_num)
  · exact (c4_amended_choice_tags.2 S2Prot.vChoiceTis 0 ⟨.s2pChoice, 0, 0,
      [⟨"x", 1, 0, false⟩], 0⟩ 8 (S2Prot.freshBuff [0x03, 0x04] true) 0x03
      ⟨[0x03, 0x04], true, 1, 0, 0⟩ 2 ⟨[0x03, 0x04], true, 2, 0, 0⟩
      rfl rfl rfl rfl).1 (by norm_num)

namespace S2Prot

/-- Which schema decoder an event stream uses (the Go decoder interface has
exactly these two implementations). -/
inductive DecKind where
  | bitPacked
  | versioned
deriving Repr, DecidableEq

/-- Dispatch of decoder.instance over the two implementations. -/
def decInstance (kind : DecKind) (tis : List typeInfo) (fuel typeid : Nat)
    (b : bitPackedBuff) : DRes (Value × bitPackedBuff) :=
  match kind with
  | .bitPacked => bitPackedDecInstance tis fuel typeid b
  | .versioned => versionedDecInstance tis fuel typeid b

/-- protocol.go EvtType: a named event data structure type. -/
structure EvtType where
  id : Int
  name : String
  typeid : Nat
deriving Repr, DecidableEq

/-- protocol.go Event: the decoded struct plus its event type. -/
structure Event where
  strct : List (String × Value)
  evtType : EvtType
deriving Repr

/-- Go strings as values (the name annotation); characters as code points. -/
def strBytes (s : String) : List Nat := s.data.map Char.toNat

/-- protocol.go decodeEvts: the gameloop accumulation loop over the one-field
delta struct — each ranged value must be an int64 and is added with int64
wrap-around. -/
def sumDeltaVals : Int → List (String × Value) → DRes Int
  | loop, [] => .ok loop
  | loop, (_, .int d) :: rest => sumDeltaVals (wrap64 (loop + d)) rest
  | _, _ => .panic

/-- protocol.go decodeEvts: one iteration of the event loop — decode the
gameloop delta (must be a Struct), accumulate the loop counter, optionally
decode the user id, decode the event id (must be an int64), look the event
type up by id, decode the event body (must be a Struct), annotate it with id,
name, loop and (if applicable) userid, and byte-align. -/
def decodeOneEvt (kind : DecKind) (tis : List typeInfo)
    (deltaTypeid useridTypeid evtidTypeid : Nat) (etypes : List EvtType)
    (decUserId : Bool) (fuel : Nat) (loop : Int) (b : bitPackedBuff) :
    DRes (Event × Int × bitPackedBuff) :=
  match decInstance kind tis fuel deltaTypeid b with
  | .panic => .panic
  | .fuelOut => .fuelOut
  | .ok (dv, b1) =>
    match dv with
    | .strct ds =>
      match sumDeltaVals loop ds with
      | .panic => .panic
      | .fuelOut => .fuelOut
      | .ok loop1 =>
        match ((if decUserId then
                 match decInstance kind tis fuel useridTypeid b1 with
                 | .panic => .panic
                 | .fuelOut => .fuelOut
                 | .ok (uv, b2) => .ok (some uv, b2)
               else .ok (none, b1)) : DRes (Option Value × bitPackedBuff)) with
        | .panic => .panic
        | .fuelOut => .fuelOut
        | .ok (userid, b2) =>
          match decInstance kind tis fuel evtidTypeid b2 with
          | .panic => .panic
          | .fuelOut => .fuelOut
          | .ok (ev, b3) =>
            match ev with
            | .int evtid =>
              if evtid < 0 then .panic
              else
                match etypes.get? evtid.toNat with
                | none => .panic
                | some evtType =>
                  match decInstance kind tis fuel evtType.typeid b3 with
                  | .panic => .panic
                  | .fuelOut => .fuelOut
                  | .ok (bodyv, b4) =>
                    match bodyv with
                    | .strct s =>
                      let s1 := structPut s "id" (.int evtid)
                      let s2 := structPut s1 "name" (.str (strBytes evtType.name))
                      let s3 := structPut s2 "loop" (.int loop1)
                      let s4 := match userid with
                                | some uv => structPut s3 "userid" uv
                                | none => s3
                      .ok (⟨s4, evtType⟩, loop1, b4.byteAlign)
                    | _ => .panic
            | _ => .panic
    | _ => .panic

/-- Outcome of the event loop body: all events on a clean run to EOF, the
events accumulated before the first failure (the recover boundary of
decodeEvts preserves them), or no verdict when the fuel runs out. -/
inductive EvtsRes where
  | ok (evts : List Event)
  | err (evts : List Event)
  | fuelOut
deriving Repr

/-- protocol.go decodeEvts: the event loop (run until EOF; a panic in any
iteration unwinds to the recover boundary with the accumulated events). -/
def decodeEvtsLoop (kind : DecKind) (tis : List typeInfo)
    (deltaTypeid useridTypeid evtidTypeid : Nat) (etypes : List EvtType)
    (decUserId : Bool) : Nat → Int → bitPackedBuff → EvtsRes
  | 0, _, _ => .fuelOut
  | fuel + 1, loop, b =>
    if b.EOF then .ok []
    else
      match decodeOneEvt kind tis deltaTypeid useridTypeid evtidTypeid etypes
          decUserId fuel loop b with
      | .panic => .err []
      | .fuelOut => .fuelOut
      | .ok (e, loop1, b1) =>
        match decodeEvtsLoop kind tis deltaTypeid useridTypeid evtidTypeid etypes
            decUserId fuel loop1 b1 with
        | .ok rest => .ok (e :: rest)
        | .err rest => .err (e :: rest)
        | .fuelOut => .fuelOut
termination_by structural fuel => fuel

/-- protocol.go decodeEvts: decode a series of events from a fresh buffer; on
the first failure the successfully decoded events are returned along with the
error flag (the recover boundary); none only when the fuel runs out. -/
def decodeEvts (kind : DecKind) (tis : List typeInfo)
    (deltaTypeid useridTypeid evtidTypeid : Nat) (etypes : List EvtType)
    (decUserId : Bool) (fuel : Nat) (contents : List Nat) :
    Option (List Event × Bool) :=
  match decodeEvtsLoop kind tis deltaTypeid useridTypeid evtidTypeid etypes
      decUserId fuel 0 (freshBuff contents true) with
  | .ok evts => some (evts, false)
  | .err evts => some (evts, true)
  | .fuelOut => none

/-- protocol.go Protocol: the per-build bundle of decoding tables. -/
structure Protocol where
  baseBuild : Int
  typeInfos : List typeInfo
  hasTrackerEvents : Bool
  gameEvtTypes : List EvtType
  gameEventidTypeid : Nat
  messageEvtTypes : List EvtType
  messageEventidTypeid : Nat
  trackerEvtTypes : List EvtType
  trackerEventidTypeid : Nat
  svaruint32Typeid : Nat
  replayUseridTypeid : Nat
  replayHeaderTypeid : Nat
  gameDetailsTypeid : Nat
  replayInitdataTypeid : Nat
deriving Repr, DecidableEq

/-- protocol.go DecodeGameEvts (bit-packed, with user ids). -/
def Protocol.DecodeGameEvts (p : Protocol) (fuel : Nat) (contents : List Nat) :
    Option (List Event × Bool) :=
  decodeEvts .bitPacked p.typeInfos p.svaruint32Typeid p.replayUseridTypeid
    p.gameEventidTypeid p.gameEvtTypes true fuel contents

/-- protocol.go DecodeMessageEvts (bit-packed, with user ids). -/
def Protocol.DecodeMessageEvts (p : Protocol) (fuel : Nat) (contents : List Nat) :
    Option (List Event × Bool) :=
  decodeEvts .bitPacked p.typeInfos p.svaruint32Typeid p.replayUseridTypeid
    p.messageEventidTypeid p.messageEvtTypes true fuel contents

/-- protocol.go DecodeTrackerEvts (versioned, no user ids). -/
def Protocol.DecodeTrackerEvts (p : Protocol) (fuel : Nat) (contents : List Nat) :
    Option (List Event × Bool) :=
  decodeEvts .versioned p.typeInfos p.svaruint32Typeid p.replayUseridTypeid
    p.trackerEventidTypeid p.trackerEvtTypes false fuel contents

end S2Prot

namespace S2Prot

theorem structGet_put_same (s : List (String × Value)) (k : String) (v : Value) :
    structGet (structPut s k v) k = some v := by
  induction s with
  | nil => simp [structPut, structGet]
  | cons kv rest ih =>
    obtain ⟨k0, v0⟩ := kv
    by_cases h : k0 = k
    · simp [structPut, structGet, h]
    · simp [structPut, structGet, h, ih]

theorem structGet_put_other (s : List (String × Value)) (k k' : String) (v : Value)
    (h : k ≠ k') : structGet (structPut s k v) k' = structGet s k' := by
  induction s with
  | nil => simp [structPut, structGet, h]
  | cons kv rest ih =>
    obtain ⟨k0, v0⟩ := kv
    by_cases h0 : k0 = k
    · subst h0
      simp [structPut, structGet, h]
    · simp [structPut, structGet, h0, ih]

/-- Specification helper: the sequence of wire gameloop deltas of a run whose
every delta decodes to a one-field struct holding an int64 (the one-field
Choice shape of svaruint32); none when a delta has any other shape or the
fuel runs out. -/
def wireDeltas (kind : DecKind) (tis : List typeInfo)
    (deltaTypeid useridTypeid evtidTypeid : Nat) (etypes : List EvtType)
    (decUserId : Bool) : Nat → Int → bitPackedBuff → Option (List Int)
  | 0, _, _ => none
  | fuel + 1, loop, b =>
    if b.EOF then some []
    else
      match decInstance kind tis fuel deltaTypeid b with
      | .ok (.strct [(_, .int d)], _) =>
        match decodeOneEvt kind tis deltaTypeid useridTypeid evtidTypeid etypes
            decUserId fuel loop b with
        | .ok (_, loop1, b1) =>
          match wireDeltas kind tis deltaTypeid useridTypeid evtidTypeid etypes
              decUserId fuel loop1 b1 with
          | some rest => some (d :: rest)
          | none => none
        | _ => none
      | _ => none
termination_by structural fuel => fuel

/-- The loop counter after int64 wrap-around accumulation of a delta list. -/
def wrapSum (loop : Int) (l : List Int) : Int :=
  l.foldl (fun a d => wrap64 (a + d)) loop

/-- A successfully decoded event whose delta struct is the one-field int form
carries the updated loop counter under its "loop" key. -/
theorem decodeOneEvt_loop_annot (kind : DecKind) (tis : List typeInfo)
    (dT uT eT : Nat) (etypes : List EvtType) (decU : Bool) (fuel : Nat)
    (loop : Int) (b : bitPackedBuff) (e : Event) (loop1 : Int)
    (b1 : bitPackedBuff) (nm : String) (d : Int) (bx : bitPackedBuff)
    (h : decodeOneEvt kind tis dT uT eT etypes decU fuel loop b = .ok (e, loop1, b1))
    (hd : decInstance kind tis fuel dT b = .ok (.strct [(nm, .int d)], bx)) :
    loop1 = wrap64 (loop + d) ∧ structGet e.strct "loop" = some (.int loop1) := by
  unfold decodeOneEvt at h
  rw [hd] at h
  simp only [sumDeltaVals] at h
  split at h
  · exact absurd h (by simp)
  · exact absurd h (by simp)
  · next userid b2 hu =>
    split at h
    · exact absurd h (by simp)
    · exact absurd h (by simp)
    · next ev b3 hev =>
      split at h
      · next evtid =>
        split at h
        · exact absurd h (by simp)
        · split at h
          · exact absurd h (by simp)
          · next evtType hety =>
            split at h
            · exact absurd h (by simp)
            · exact absurd h (by simp)
            · next bodyv b4 hbody =>
              split at h
              · next s =>
                simp only [DRes.ok.injEq, Prod.mk.injEq] at h
                obtain ⟨he, hl, hb⟩ := h
                refine ⟨hl.symm, ?_⟩
                rw [← he]
                cases userid with
                | some uv =>
                  simp only []
                  rw [structGet_put_other _ "userid" "loop" _ (by decide),
                    structGet_put_same, hl]
                | none =>
                  simp only []
                  rw [structGet_put_same, hl]
              · exact absurd h (by simp)
      · exact absurd h (by simp)

/-- The events of a clean run carry prefix wrap-sums of the wire deltas. -/
theorem decodeEvtsLoop_prefix_sums (kind : DecKind) (tis : List typeInfo)
    (dT uT eT : Nat) (etypes : List EvtType) (decU : Bool) :
    ∀ (fuel : Nat) (loop : Int) (b : bitPackedBuff) (evts : List Event)
      (ds : List Int),
      decodeEvtsLoop kind tis dT uT eT etypes decU fuel loop b = .ok evts →
      wireDeltas kind tis dT uT eT etypes decU fuel loop b = some ds →
      evts.length = ds.length ∧
      ∀ (k : Nat) (hk : k < evts.length),
        structGet (evts.get ⟨k, hk⟩).strct "loop" =
          some (.int (wrapSum loop (ds.take (k + 1)))) := by
  intro fuel
  induction fuel with
  | zero =>
    intro loop b evts ds hrun hds
    exact absurd hrun (by simp [decodeEvtsLoop])
  | succ fuel ih =>
    intro loop b evts ds hrun hds
    unfold decodeEvtsLoop at hrun
    unfold wireDeltas at hds
    by_cases heof : b.EOF = true
    · rw [if_pos heof] at hrun hds
      simp only [EvtsRes.ok.injEq] at hrun
      simp only [Option.some.injEq] at hds
      subst hrun
      subst hds
      refine ⟨rfl, ?_⟩
      intro k hk
      exact absurd hk (by simp)
    · rw [if_neg heof] at hrun hds
      split at hds
      · next nm d bx hd =>
        split at hds
        · next e0 loop1 b1 hstep =>
          split at hds
          · next rest hdrest =>
            simp only [Option.some.injEq] at hds
            subst hds
            rw [hstep] at hrun
            split at hrun
            · next hq => exact absurd hq (by simp)
            · next hq => exact absurd hq (by simp)
            · next e1 l1 b1x hq =>
              simp only [DRes.ok.injEq, Prod.mk.injEq] at hq
              obtain ⟨hq1, hq2, hq3⟩ := hq
              subst hq1
              subst hq2
              subst hq3
              split at hrun
              · next rest' hloop =>
                simp only [EvtsRes.ok.injEq] at hrun
                subst hrun
                obtain ⟨ihlen, ihget⟩ := ih loop1 b1 rest' rest hloop hdrest
                obtain ⟨hl1, hget0⟩ := decodeOneEvt_loop_annot kind tis dT uT eT
                  etypes decU fuel loop b e0 loop1 b1 nm d bx hstep hd
                refine ⟨by simp [ihlen], ?_⟩
                intro k hk
                cases k with
                | zero =>
                  show structGet e0.strct "loop" = some (.int (wrap64 (loop + d)))
                  rw [hget0, hl1]
                | succ k =>
                  have hk' : k < rest'.length := by
                    simpa using hk
                  show structGet (rest'.get ⟨k, hk'⟩).strct "loop" =
                    some (.int (wrapSum (wrap64 (loop + d)) (rest.take (k + 1))))
                  rw [← hl1]
                  exact ihget k hk'
              · exact absurd hrun (by simp)
              · exact absurd hrun (by simp)
          · exact absurd hds (by simp)
        · exact absurd hds (by simp)
      · exact absurd hds (by simp)

end S2Prot

namespace S2Prot

/-- A successful decodeEvts run satisfies the loop prefix-sum property. -/
theorem decodeEvts_prefix_sums (kind : DecKind) (tis : List typeInfo)
    (dT uT eT : Nat) (etypes : List EvtType) (decU : Bool) (fuel : Nat)
    (contents : List Nat) (evts : List Event) (ds : List Int)
    (h : decodeEvts kind tis dT uT eT etypes decU fuel contents = some (evts, false))
    (hds : wireDeltas kind tis dT uT eT etypes decU fuel 0
      (freshBuff contents true) = some ds) :
    evts.length = ds.length ∧
    ∀ (k : Nat) (hk : k < evts.length),
      structGet (evts.get ⟨k, hk⟩).strct "loop" =
        some (.int (wrapSum 0 (ds.take (k + 1)))) := by
  unfold decodeEvts at h
  cases hrun : decodeEvtsLoop kind tis dT uT eT etypes decU fuel 0
      (freshBuff contents true) with
  | ok evts0 =>
    rw [hrun] at h
    simp only [Option.some.injEq, Prod.mk.injEq] at h
    rw [← h.1]
    exact decodeEvtsLoop_prefix_sums kind tis dT uT eT etypes decU fuel 0
      (freshBuff contents true) evts0 ds hrun hds
  | err evts0 =>
    rw [hrun] at h
    simp at h
  | fuelOut =>
    rw [hrun] at h
    exact absurd h (by simp)

/-- Mini protocol used by the event-stream witnesses: the delta type is a
one-variant Choice over a 6-bit int, user id and event id are 8-bit ints and
the single declared event's body is an empty struct. -/
def miniTis : List typeInfo :=
  [⟨.s2pChoice, 0, 2, [⟨"v", 1, 0, false⟩], 0⟩,
   ⟨.s2pInt, 0, 6, [], 0⟩,
   ⟨.s2pInt, 0, 8, [], 0⟩,
   ⟨.s2pStruct, 0, 0, [], 0⟩]

/-- Event table of the mini protocol. -/
def miniEtypes : List EvtType := [⟨0, "E", 3⟩]

/-- The mini protocol bundle. -/
def miniProt : Protocol :=
  ⟨0, miniTis, true, miniEtypes, 2, miniEtypes, 2, miniEtypes, 2, 0, 2, 0, 0, 0⟩

end S2Prot

/-- C7: in every successful event-stream decode (DecodeGameEvts,
DecodeMessageEvts, DecodeTrackerEvts) whose wire gameloop deltas each decode
to a one-field Choice struct holding an int64 (the wireDeltas premise), the
loop value annotated on the k-th decoded event equals the int64 wrap-around
sum of the first k wire deltas; in particular the final event's loop equals
the wrap-around sum of all wire deltas. -/
theorem c7_loop_prefix_sums (p : S2Prot.Protocol) (fuel : Nat)
    (contents : List Nat) :
    (∀ evts ds, p.DecodeGameEvts fuel contents = some (evts, false) →
       S2Prot.wireDeltas .bitPacked p.typeInfos p.svaruint32Typeid
         p.replayUseridTypeid p.gameEventidTypeid p.gameEvtTypes true fuel 0
         (S2Prot.freshBuff contents true) = some ds →
       evts.length = ds.length ∧
       ∀ (k : Nat) (hk : k < evts.length),
         S2Prot.structGet (evts.get ⟨k, hk⟩).strct "loop" =
           some (.int (S2Prot.wrapSum 0 (ds.take (k + 1))))) ∧
    (∀ evts ds, p.DecodeMessageEvts fuel contents = some (evts, false) →
       S2Prot.wireDeltas .bitPacked p.typeInfos p.svaruint32Typeid
         p.replayUseridTypeid p.messageEventidTypeid p.messageEvtTypes true fuel 0
         (S2Prot.freshBuff contents true) = some ds →
       evts.length = ds.length ∧
       ∀ (k : Nat) (hk : k < evts.length),
         S2Prot.structGet (evts.get ⟨k, hk⟩).strct "loop" =
           some (.int (S2Prot.wrapSum 0 (ds.take (k + 1))))) ∧
    (∀ evts ds, p.DecodeTrackerEvts fuel contents = some (evts, false) →
       S2Prot.wireDeltas .versioned p.typeInfos p.svaruint32Typeid
         p.replayUseridTypeid p.trackerEventidTypeid p.trackerEvtTypes false fuel 0
         (S2Prot.freshBuff contents true) = some ds →
       evts.length = ds.length ∧
       ∀ (k : Nat) (hk : k < evts.length),
         S2Prot.structGet (evts.get ⟨k, hk⟩).strct "loop" =
           some (.int (S2Prot.wrapSum 0 (ds.take (k + 1))))) := by
  refine ⟨?_, ?_, ?_⟩
  · intro evts ds h hds
    exact S2Prot.decodeEvts_prefix_sums .bitPacked p.typeInfos p.svaruint32Typeid
      p.replayUseridTypeid p.gameEventidTypeid p.gameEvtTypes true fuel contents
      evts ds h hds
  · intro evts ds h hds
    exact S2Prot.decodeEvts_prefix_sums .bitPacked p.typeInfos p.svaruint32Typeid
      p.replayUseridTypeid p.messageEventidTypeid p.messageEvtTypes true fuel contents
      evts ds h hds
  · intro evts ds h hds
    exact S2Prot.decodeEvts_prefix_sums .versioned p.typeInfos p.svaruint32Typeid
      p.replayUseridTypeid p.trackerEventidTypeid p.trackerEvtTypes false fuel contents
      evts ds h hds

/-- Witness for c7_loop_prefix_sums: the mini protocol over the game-event
stream 0x08 0x07 0x00 (one event, delta 2, userid 7, event id 0). -/
theorem c7_loop_prefix_sums_witness :
    ([⟨[("id", S2Prot.Value.int 0), ("name", S2Prot.Value.str [69]),
        ("loop", S2Prot.Value.int 2), ("userid", S2Prot.Value.int 7)],
       ⟨0, "E", 3⟩⟩] : List S2Prot.Event).length = ([2] : List Int).length ∧
    ∀ (k : Nat) (hk : k < ([⟨[("id", S2Prot.Value.int 0),
        ("name", S2Prot.Value.str [69]), ("loop", S2Prot.Value.int 2),
        ("userid", S2Prot.Value.int 7)], ⟨0, "E", 3⟩⟩] : List S2Prot.Event).length),
      S2Prot.structGet (([⟨[("id", S2Prot.Value.int 0),
          ("name", S2Prot.Value.str [69]), ("loop", S2Prot.Value.int 2),
          ("userid", S2Prot.Value.int 7)], ⟨0, "E", 3⟩⟩] : List S2Prot.Event).get
        ⟨k, hk⟩).strct "loop" =
        some (.int (S2Prot.wrapSum 0 (([2] : List Int).take (k + 1)))) :=
  (c7_loop_prefix_sums S2Prot.miniProt 50 [0x08, 0x07, 0x00]).1
    [⟨[("id", S2Prot.Value.int 0), ("name", S2Prot.Value.str [69]),
       ("loop", S2Prot.Value.int 2), ("userid", S2Prot.Value.int 7)],
      ⟨0, "E", 3⟩⟩] [2] rfl rfl

namespace S2Prot

/-- A partial run of the event loop: successively decoded events with the
loop counter and buffer threaded through; the fuel index mirrors the loop
(each iteration runs its body at one fuel less, and a run may stop early). -/
inductive EvtsRun (kind : DecKind) (tis : List typeInfo)
    (dT uT eT : Nat) (etypes : List EvtType) (decU : Bool) :
    Nat → Int → bitPackedBuff → List Event → Int → bitPackedBuff → Prop where
  | nil {fuel : Nat} {loop : Int} {b : bitPackedBuff} :
      EvtsRun kind tis dT uT eT etypes decU fuel loop b [] loop b
  | cons {fuel : Nat} {loop : Int} {b : bitPackedBuff} {e : Event}
      {loop1 : Int} {b1 : bitPackedBuff} {evts : List Event} {loop2 : Int}
      {b2 : bitPackedBuff} :
      b.EOF = false →
      decodeOneEvt kind tis dT uT eT etypes decU fuel loop b = .ok (e, loop1, b1) →
      EvtsRun kind tis dT uT eT etypes decU fuel loop1 b1 evts loop2 b2 →
      EvtsRun kind tis dT uT eT etypes decU (fuel + 1) loop b (e :: evts) loop2 b2

/-- A clean loop result is a full run ending at EOF. -/
theorem decodeEvtsLoop_ok_run (kind : DecKind) (tis : List typeInfo)
    (dT uT eT : Nat) (etypes : List EvtType) (decU : Bool) :
    ∀ (fuel : Nat) (loop : Int) (b : bitPackedBuff) (evts : List Event),
      decodeEvtsLoop kind tis dT uT eT etypes decU fuel loop b = .ok evts →
      ∃ loop2 b2, EvtsRun kind tis dT uT eT etypes decU fuel loop b evts loop2 b2 ∧
        b2.EOF = true := by
  intro fuel
  induction fuel with
  | zero =>
    intro loop b evts h
    exact absurd h (by simp [decodeEvtsLoop])
  | succ fuel ih =>
    intro loop b evts h
    unfold decodeEvtsLoop at h
    by_cases heof : b.EOF = true
    · rw [if_pos heof] at h
      simp only [EvtsRes.ok.injEq] at h
      subst h
      exact ⟨loop, b, .nil, heof⟩
    · rw [if_neg heof] at h
      split at h
      · exact absurd h (by simp)
      · exact absurd h (by simp)
      · next e loop1 b1 hstep =>
        split at h
        · next rest hrest =>
          simp only [EvtsRes.ok.injEq] at h
          subst h
          obtain ⟨loop2, b2, hrun, heof2⟩ := ih loop1 b1 rest hrest
          exact ⟨loop2, b2, .cons (by simpa using heof) hstep hrun, heof2⟩
        · exact absurd h (by simp)
        · exact absurd h (by simp)

/-- An error loop result is a partial run whose next iteration panics. -/
theorem decodeEvtsLoop_err_run (kind : DecKind) (tis : List typeInfo)
    (dT uT eT : Nat) (etypes : List EvtType) (decU : Bool) :
    ∀ (fuel : Nat) (loop : Int) (b : bitPackedBuff) (evts : List Event),
      decodeEvtsLoop kind tis dT uT eT etypes decU fuel loop b = .err evts →
      ∃ loop2 b2, EvtsRun kind tis dT uT eT etypes decU fuel loop b evts loop2 b2 ∧
        b2.EOF = false ∧
        ∃ fuel2, decodeOneEvt kind tis dT uT eT etypes decU fuel2 loop2 b2 = .panic := by
  intro fuel
  induction fuel with
  | zero =>
    intro loop b evts h
    exact absurd h (by simp [decodeEvtsLoop])
  | succ fuel ih =>
    intro loop b evts h
    unfold decodeEvtsLoop at h
    by_cases heof : b.EOF = true
    · rw [if_pos heof] at h
      exact absurd h (by simp)
    · rw [if_neg heof] at h
      split at h
      · next hpanic =>
        simp only [EvtsRes.err.injEq] at h
        subst h
        exact ⟨loop, b, .nil, by simpa using heof, fuel, hpanic⟩
      · exact absurd h (by simp)
      · next e loop1 b1 hstep =>
        split at h
        · exact absurd h (by simp)
        · next rest hrest =>
          simp only [EvtsRes.err.injEq] at h
          subst h
          obtain ⟨loop2, b2, hrun, heof2, fuel2, hp⟩ := ih loop1 b1 rest hrest
          exact ⟨loop2, b2, .cons (by simpa using heof) hstep hrun, heof2, fuel2, hp⟩
        · exact absurd h (by simp)

end S2Prot

/-- C8: the event-stream decoder never lets a decode panic escape: its result
type carries only the event list and an error flag (the recover boundary of
decodeEvts, shared by DecodeGameEvts, DecodeMessageEvts and DecodeTrackerEvts).
On a clean run (flag false) the events form a full run of per-event decodes
ending exactly at EOF; on a failed run (flag true) the returned events are
precisely those accumulated before the failing event, the stream position is
not at EOF, and the next per-event decode is the panic that was recovered. -/
theorem c8_event_stream_error_recovery (kind : S2Prot.DecKind)
    (tis : List S2Prot.typeInfo) (dT uT eT : Nat) (etypes : List S2Prot.EvtType)
    (decU : Bool) (fuel : Nat) (contents : List Nat) :
    (∀ evts, S2Prot.decodeEvts kind tis dT uT eT etypes decU fuel contents =
        some (evts, false) →
      ∃ loop2 b2, S2Prot.EvtsRun kind tis dT uT eT etypes decU fuel 0
          (S2Prot.freshBuff contents true) evts loop2 b2 ∧ b2.EOF = true) ∧
    (∀ evts, S2Prot.decodeEvts kind tis dT uT eT etypes decU fuel contents =
        some (evts, true) →
      ∃ loop2 b2, S2Prot.EvtsRun kind tis dT uT eT etypes decU fuel 0
          (S2Prot.freshBuff contents true) evts loop2 b2 ∧ b2.EOF = false ∧
        ∃ fuel2, S2Prot.decodeOneEvt kind tis dT uT eT etypes decU fuel2 loop2 b2 =
          .panic) := by
  constructor
  · intro evts h
    unfold S2Prot.decodeEvts at h
    cases hrun : S2Prot.decodeEvtsLoop kind tis dT uT eT etypes decU fuel 0
        (S2Prot.freshBuff contents true) with
    | ok evts0 =>
      rw [hrun] at h
      simp only [Option.some.injEq, Prod.mk.injEq] at h
      rw [← h.1]
      exact S2Prot.decodeEvtsLoop_ok_run kind tis dT uT eT etypes decU fuel 0
        (S2Prot.freshBuff contents true) evts0 hrun
    | err evts0 =>
      rw [hrun] at h
      simp at h
    | fuelOut =>
      rw [hrun] at h
      exact absurd h (by simp)
  · intro evts h
    unfold S2Prot.decodeEvts at h
    cases hrun : S2Prot.decodeEvtsLoop kind tis dT uT eT etypes decU fuel 0
        (S2Prot.freshBuff contents true) with
    | ok evts0 =>
      rw [hrun] at h
      simp at h
    | err evts0 =>
      rw [hrun] at h
      simp only [Option.some.injEq, Prod.mk.injEq] at h
      rw [← h.1]
      exact S2Prot.decodeEvtsLoop_err_run kind tis dT uT eT etypes decU fuel 0
        (S2Prot.freshBuff contents true) evts0 hrun
    | fuelOut =>
      rw [hrun] at h
      exact absurd h (by simp)

/-- Witness for c8_event_stream_error_recovery: the mini protocol over the
stream 0x08 0x01, whose first event fails while reading its event id past the
end of input; the decode returns no events and the error flag. -/
theorem c8_event_stream_error_recovery_witness :
    ∃ loop2 b2, S2Prot.EvtsRun .bitPacked S2Prot.miniTis 0 2 2 S2Prot.miniEtypes
        true 50 0 (S2Prot.freshBuff [0x08, 0x01] true) [] loop2 b2 ∧
      b2.EOF = false ∧
      ∃ fuel2, S2Prot.decodeOneEvt .bitPacked S2Prot.miniTis 0 2 2
        S2Prot.miniEtypes true fuel2 loop2 b2 = .panic :=
  (c8_event_stream_error_recovery .bitPacked S2Prot.miniTis 0 2 2
    S2Prot.miniEtypes true 50 [0x08, 0x01]).2 [] rfl

namespace S2Prot

/-- The process-wide protocols cache (protocol.go protocols map): base build
to parse result; a stored none is the cached negative verdict. -/
abbrev ProtCache := List (Int × Option Protocol)

/-- Go map lookup (value plus presence). -/
def cacheLookup : ProtCache → Int → Option (Option Protocol)
  | [], _ => none
  | (k, v) :: rest, b => if k = b then some v else cacheLookup rest b

/-- Go map store (replace in place or append). -/
def cachePut : ProtCache → Int → Option Protocol → ProtCache
  | [], b, v => [(b, v)]
  | (k, v0) :: rest, b, v =>
    if k = b then (k, v) :: rest else (k, v0) :: cachePut rest b v

/-- protocol.go getProtocol, parametrized by the builds and duplicates tables
of the build package (their generated schema files are not under src/) and by
parseProtocol (abstracted to its outcome: nil on a recovered parse failure).
The fuel bounds the duplicate-alias recursion; none only on fuel exhaustion. -/
def getProtocol (builds : Int → Option String) (duplicates : Int → Option Int)
    (parse : String → Int → Option Protocol) :
    Nat → ProtCache → Int → Option (Option Protocol × ProtCache)
  | 0, _, _ => none
  | fuel + 1, cache, baseBuild =>
    match cacheLookup cache baseBuild with
    | some p => some (p, cache)
    | none =>
      match builds baseBuild with
      | some src =>
        let p := parse src baseBuild
        some (p, cachePut cache baseBuild p)
      | none =>
        match duplicates baseBuild with
        | some origBaseBuild =>
          match getProtocol builds duplicates parse fuel cache origBaseBuild with
          | none => none
          | some (op, cache2) =>
            let p := match op with
                     | some opp => some { opp with baseBuild := baseBuild }
                     | none => none
            some (p, cachePut cache2 baseBuild p)
        | none => some (none, cachePut cache baseBuild none)
termination_by structural fuel => fuel

/-- protocol.go GetProtocol: the exported entry point; the mutex is a no-op
in this single-threaded embedding. -/
def GetProtocol (builds : Int → Option String) (duplicates : Int → Option Int)
    (parse : String → Int → Option Protocol) (fuel : Nat) (cache : ProtCache)
    (baseBuild : Int) : Option (Option Protocol × ProtCache) :=
  getProtocol builds duplicates parse fuel cache baseBuild

end S2Prot

/-- C9: for every build number listed in the duplicates table (and not in the
builds table, the invariant of the generated build package) that is not yet
cached and whose aliased original build resolves to a Protocol P, GetProtocol
returns a Protocol equal to P in every field except baseBuild, which is the
requested build number. -/
theorem c9_duplicate_alias_clone (builds : Int → Option String)
    (duplicates : Int → Option Int) (parse : String → Int → Option S2Prot.Protocol)
    (fuel : Nat) (cache : S2Prot.ProtCache) (b orig : Int) (P : S2Prot.Protocol)
    (cache2 : S2Prot.ProtCache)
    (hc : S2Prot.cacheLookup cache b = none)
    (hb : builds b = none)
    (hd : duplicates b = some orig)
    (hrec : S2Prot.getProtocol builds duplicates parse fuel cache orig =
      some (some P, cache2)) :
    ∃ Q, S2Prot.GetProtocol builds duplicates parse (fuel + 1) cache b =
        some (some Q, S2Prot.cachePut cache2 b (some Q)) ∧
      Q.baseBuild = b ∧
      Q.typeInfos = P.typeInfos ∧
      Q.hasTrackerEvents = P.hasTrackerEvents ∧
      Q.gameEvtTypes = P.gameEvtTypes ∧
      Q.gameEventidTypeid = P.gameEventidTypeid ∧
      Q.messageEvtTypes = P.messageEvtTypes ∧
      Q.messageEventidTypeid = P.messageEventidTypeid ∧
      Q.trackerEvtTypes = P.trackerEvtTypes ∧
      Q.trackerEventidTypeid = P.trackerEventidTypeid ∧
      Q.svaruint32Typeid = P.svaruint32Typeid ∧
      Q.replayUseridTypeid = P.replayUseridTypeid ∧
      Q.replayHeaderTypeid = P.replayHeaderTypeid ∧
      Q.gameDetailsTypeid = P.gameDetailsTypeid ∧
      Q.replayInitdataTypeid = P.replayInitdataTypeid := by
  refine ⟨{ P with baseBuild := b }, ?_, rfl, rfl, rfl, rfl, rfl, rfl, rfl, rfl,
    rfl, rfl, rfl, rfl, rfl, rfl⟩
  unfold S2Prot.GetProtocol
  simp only [S2Prot.getProtocol, hc, hb, hd, hrec]

/-- Witness for c9_duplicate_alias_clone: build 2 aliases build 1, whose
schema parses to the mini protocol stamped with base build 1. -/
theorem c9_duplicate_alias_clone_witness :
    ∃ Q, S2Prot.GetProtocol
        (fun b => if b = 1 then some "src1" else none)
        (fun b => if b = 2 then some 1 else none)
        (fun _ bb => some { S2Prot.miniProt with baseBuild := bb })
        2 [] 2 =
        some (some Q, S2Prot.cachePut [(1, some { S2Prot.miniProt with baseBuild := 1 })]
          2 (some Q)) ∧
      Q.baseBuild = 2 ∧
      Q.typeInfos = ({ S2Prot.miniProt with baseBuild := 1 } : S2Prot.Protocol).typeInfos ∧
      Q.hasTrackerEvents =
        ({ S2Prot.miniProt with baseBuild := 1 } : S2Prot.Protocol).hasTrackerEvents ∧
      Q.gameEvtTypes =
        ({ S2Prot.miniProt with baseBuild := 1 } : S2Prot.Protocol).gameEvtTypes ∧
      Q.gameEventidTypeid =
        ({ S2Prot.miniProt with baseBuild := 1 } : S2Prot.Protocol).gameEventidTypeid ∧
      Q.messageEvtTypes =
        ({ S2Prot.miniProt with baseBuild := 1 } : S2Prot.Protocol).messageEvtTypes ∧
      Q.messageEventidTypeid =
        ({ S2Prot.miniProt with baseBuild := 1 } : S2Prot.Protocol).messageEventidTypeid ∧
      Q.trackerEvtTypes =
        ({ S2Prot.miniProt with baseBuild := 1 } : S2Prot.Protocol).trackerEvtTypes ∧
      Q.trackerEventidTypeid =
        ({ S2Prot.miniProt with baseBuild := 1 } : S2Prot.Protocol).trackerEventidTypeid ∧
      Q.svaruint32Typeid =
        ({ S2Prot.miniProt with baseBuild := 1 } : S2Prot.Protocol).svaruint32Typeid ∧
      Q.replayUseridTypeid =
        ({ S2Prot.miniProt with baseBuild := 1 } : S2Prot.Protocol).replayUseridTypeid ∧
      Q.replayHeaderTypeid =
        ({ S2Prot.miniProt with baseBuild := 1 } : S2Prot.Protocol).replayHeaderTypeid ∧
      Q.gameDetailsTypeid =
        ({ S2Prot.miniProt with baseBuild := 1 } : S2Prot.Protocol).gameDetailsTypeid ∧
      Q.replayInitdataTypeid =
        ({ S2Prot.miniProt with baseBuild := 1 } : S2Prot.Protocol).replayInitdataTypeid :=
  c9_duplicate_alias_clone
    (fun b => if b = 1 then some "src1" else none)
    (fun b => if b = 2 then some 1 else none)
    (fun _ bb => some { S2Prot.miniProt with baseBuild := bb })
    1 [] 2 1 { S2Prot.miniProt with baseBuild := 1 }
    [(1, some { S2Prot.miniProt with baseBuild := 1 })]
    rfl rfl rfl rfl
